import Mathlib

/-!
# Verification of the Baghchal core (`src/lib.rs`, `src/main.rs`)

Shallow embedding of the Bagh-Chal rules engine, move generator, win
detector, evaluation function and search driver from `src/lib.rs`.

Modelling conventions:
* Rust `usize` indices are `Nat`; signed row/column arithmetic
  (`as i32` casts, `wrapping_sub`) is modelled with `Int` coordinates,
  since a wrapped `usize` always fails the `< 5` bound exactly as a
  negative `Int` fails `0 ≤ _`.
* The Rust array `cells: [Piece; 25]` is a `List Piece`; boards built by
  `Board.new` and preserved by every operation have length 25.  Reads
  `self.cells[i]` are modelled by `cellAt` (`List.getD` with default
  `Empty`); in the Rust code every read is either bounds-checked first or
  made with an index below 25, so the default is never observed.
* `Vec::push`/`Vec::pop` on the move history is a stack: push is `::` at
  the head, pop takes the head.
* The newtype `Position(pub usize)` is flattened to `Nat`.
* `Instant::now()/elapsed()` polling in the search is abstracted by a
  timer oracle `Nat → Bool` (`true` = the time budget has expired at that
  poll), each comparison with the time limit consuming one oracle index;
  the time-driven outer `while` of the iterative deepening loop gets an
  explicit fuel bound, exhaustion behaving like an expired budget check.
* `i32` scores are `Int` with `i32::MIN`/`i32::MAX` as the sentinel
  values used by the Rust code; no property proved here depends on
  wrap-around behaviour of scores.
-/

inductive Piece where
  | Tiger : Piece
  | Goat : Piece
  | Empty : Piece
deriving DecidableEq, Repr

inductive Winner where
  | Tigers : Winner
  | Goats : Winner
  | None : Winner
deriving DecidableEq, Repr

inductive Move where
  | PlaceGoat : (position : Nat) → Move
  | MoveGoat : (f : Nat) → (t : Nat) → Move
  | MoveTiger : (f : Nat) → (t : Nat) → (captured_position : Option Nat) → Move
deriving DecidableEq, Repr

structure Board where
  cells : List Piece
  goats_in_hand : Nat
  captured_goats : Nat
  selected_position : Option Nat
  move_history : List Move
deriving DecidableEq, Repr

/-- Rust's `self.cells[i]` (all uses are in-bounds, see module comment). -/
def cellAt (cells : List Piece) (i : Nat) : Piece :=
  cells.getD i Piece.Empty

/-- `Board::new`: tigers on the four corners, 20 goats in hand. -/
def Board.new : Board :=
  { cells := ((((List.replicate 25 Piece.Empty).set 0 Piece.Tiger).set 4
        Piece.Tiger).set 20 Piece.Tiger).set 24 Piece.Tiger
    goats_in_hand := 20
    captured_goats := 0
    selected_position := none
    move_history := [] }

/-- `Board::is_diagonal_allowed` (ignores `self`): `matches!(pos, 0|2|…|24)`. -/
def is_diagonal_allowed (pos : Nat) : Bool :=
  match pos with
  | 0 | 2 | 4 | 6 | 8 | 10 | 12 | 14 | 16 | 18 | 20 | 22 | 24 => true
  | _ => false

/-- The eight orthogonal candidate coordinates (steps and jumps) of
`get_valid_tiger_moves`, in source order. -/
def tigerOrthCandidates (row col : Int) : List (Int × Int) :=
  [(row - 1, col), (row + 1, col), (row, col - 1), (row, col + 1),
   (row - 2, col), (row + 2, col), (row, col - 2), (row, col + 2)]

/-- The eight diagonal candidate coordinates of `get_valid_tiger_moves`. -/
def tigerDiagCandidates (row col : Int) : List (Int × Int) :=
  [(row - 1, col - 1), (row - 1, col + 1), (row + 1, col - 1), (row + 1, col + 1),
   (row - 2, col - 2), (row - 2, col + 2), (row + 2, col - 2), (row + 2, col + 2)]

/-- The `possible_moves` vector of `get_valid_tiger_moves`. -/
def tigerCandidates (pos : Nat) : List (Int × Int) :=
  let row : Int := (pos / 5 : Nat)
  let col : Int := (pos % 5 : Nat)
  tigerOrthCandidates row col ++
    (if is_diagonal_allowed pos then tigerDiagCandidates row col else [])

/-- The body of the candidate-checking loop of `get_valid_tiger_moves`:
`some` is `moves.push`, `none` is `continue`/no push. -/
def tigerCheck (cells : List Piece) (row col : Int) (c : Int × Int) : Option Nat :=
  if 0 ≤ c.1 ∧ c.1 < 5 ∧ 0 ≤ c.2 ∧ c.2 < 5 then
    let newPos : Nat := (c.1 * 5 + c.2).toNat
    let rowDiff : Nat := (c.1 - row).natAbs
    let colDiff : Nat := (c.2 - col).natAbs
    if (rowDiff = colDiff) ∧ is_diagonal_allowed newPos = false then none
    else if rowDiff = 2 ∨ colDiff = 2 then
      let midPos : Nat := (((row + c.1) / 2) * 5 + (col + c.2) / 2).toNat
      if (rowDiff = colDiff) ∧ is_diagonal_allowed midPos = false then none
      else if cellAt cells midPos = Piece.Goat ∧ cellAt cells newPos = Piece.Empty then
        some newPos
      else none
    else if cellAt cells newPos = Piece.Empty then some newPos
    else none
  else none

/-- `Board::get_valid_tiger_moves`. -/
def get_valid_tiger_moves (b : Board) (pos : Nat) : List Nat :=
  (tigerCandidates pos).filterMap
    (tigerCheck b.cells ((pos / 5 : Nat) : Int) ((pos % 5 : Nat) : Int))

/-- The `possible_moves` vector of `get_valid_goat_moves` (steps only). -/
def goatCandidates (pos : Nat) : List (Int × Int) :=
  let row : Int := (pos / 5 : Nat)
  let col : Int := (pos % 5 : Nat)
  [(row - 1, col), (row + 1, col), (row, col - 1), (row, col + 1)] ++
    (if is_diagonal_allowed pos then
      [(row - 1, col - 1), (row - 1, col + 1), (row + 1, col - 1), (row + 1, col + 1)]
    else [])

/-- The body of the candidate-checking loop of `get_valid_goat_moves`. -/
def goatCheck (cells : List Piece) (row col : Int) (c : Int × Int) : Option Nat :=
  if 0 ≤ c.1 ∧ c.1 < 5 ∧ 0 ≤ c.2 ∧ c.2 < 5 then
    let newPos : Nat := (c.1 * 5 + c.2).toNat
    let rowDiff : Nat := (c.1 - row).natAbs
    let colDiff : Nat := (c.2 - col).natAbs
    if (rowDiff = colDiff) ∧ is_diagonal_allowed newPos = false then none
    else if cellAt cells newPos = Piece.Empty then some newPos
    else none
  else none

/-- `Board::get_valid_goat_moves`. -/
def get_valid_goat_moves (b : Board) (pos : Nat) : List Nat :=
  (goatCandidates pos).filterMap
    (goatCheck b.cells ((pos / 5 : Nat) : Int) ((pos % 5 : Nat) : Int))

/-- The midpoint cell of `get_captured_position` (usize arithmetic). -/
def midPos (f t : Nat) : Nat :=
  ((f / 5 + t / 5) / 2) * 5 + (f % 5 + t % 5) / 2

/-- `Board::get_captured_position`. -/
def get_captured_position (b : Board) (f t : Nat) : Option Nat :=
  if 1 < ((f / 5 : Nat) - (t / 5 : Nat) : Int).natAbs ∨
      1 < ((f % 5 : Nat) - (t % 5 : Nat) : Int).natAbs then
    if cellAt b.cells (midPos f t) = Piece.Goat then some (midPos f t) else none
  else none

/-- `Board::place_goat`: the mutated board together with the returned `bool`
(`(b, false)` on every failing path). -/
def place_goat (b : Board) (position : Nat) : Board × Bool :=
  if b.cells.length ≤ position ∨ cellAt b.cells position ≠ Piece.Empty ∨
      b.goats_in_hand = 0 then
    (b, false)
  else
    ({ b with
        cells := b.cells.set position Piece.Goat
        goats_in_hand := b.goats_in_hand - 1
        move_history := Move.PlaceGoat position :: b.move_history }, true)

/-- `Board::move_tiger`. -/
def move_tiger (b : Board) (f t : Nat) : Board × Bool :=
  if b.cells.length ≤ f ∨ b.cells.length ≤ t then (b, false)
  else if cellAt b.cells f ≠ Piece.Tiger then (b, false)
  else if cellAt b.cells t ≠ Piece.Empty then (b, false)
  else if t ∉ get_valid_tiger_moves b f then (b, false)
  else
    let cap := get_captured_position b f t
    let capCells :=
      match cap with
      | some p => b.cells.set p Piece.Empty
      | none => b.cells
    ({ b with
        cells := (capCells.set t Piece.Tiger).set f Piece.Empty
        captured_goats :=
          match cap with
          | some _ => b.captured_goats + 1
          | none => b.captured_goats
        move_history := Move.MoveTiger f t cap :: b.move_history }, true)

/-- `Board::move_goat`. -/
def move_goat (b : Board) (f t : Nat) : Board × Bool :=
  if b.cells.length ≤ f ∨ b.cells.length ≤ t then (b, false)
  else if cellAt b.cells f ≠ Piece.Goat then (b, false)
  else if cellAt b.cells t ≠ Piece.Empty then (b, false)
  else if t ∉ get_valid_goat_moves b f then (b, false)
  else
    ({ b with
        cells := (b.cells.set t Piece.Goat).set f Piece.Empty
        move_history := Move.MoveGoat f t :: b.move_history }, true)

/-- `Board::can_undo`. -/
def can_undo (b : Board) : Bool :=
  !b.move_history.isEmpty

/-- `Board::undo`. -/
def undo (b : Board) : Board × Bool :=
  match b.move_history with
  | [] => (b, false)
  | m :: rest =>
    match m with
    | Move.PlaceGoat position =>
        ({ b with
            cells := b.cells.set position Piece.Empty
            goats_in_hand := b.goats_in_hand + 1
            selected_position := none
            move_history := rest }, true)
    | Move.MoveGoat f t =>
        ({ b with
            cells := (b.cells.set f Piece.Goat).set t Piece.Empty
            selected_position := none
            move_history := rest }, true)
    | Move.MoveTiger f t cap =>
        match cap with
        | some p =>
            ({ b with
                cells := ((b.cells.set f Piece.Tiger).set t Piece.Empty).set p Piece.Goat
                captured_goats := b.captured_goats - 1
                selected_position := none
                move_history := rest }, true)
        | none =>
            ({ b with
                cells := (b.cells.set f Piece.Tiger).set t Piece.Empty
                selected_position := none
                move_history := rest }, true)

/-- The tiger positions of the board, in cell order
(`cells.iter().enumerate().filter(Tiger).map(pos)`). -/
def tigerPositions (b : Board) : List Nat :=
  (List.range b.cells.length).filter (fun p => cellAt b.cells p = Piece.Tiger)

/-- The goat positions of the board, in cell order. -/
def goatPositions (b : Board) : List Nat :=
  (List.range b.cells.length).filter (fun p => cellAt b.cells p = Piece.Goat)

/-- `Board::get_winner`: tigers first (`captured_goats >= 5`), then the
all-tigers-trapped test (early `return None` on any mobile tiger ≡ `any`). -/
def get_winner (b : Board) : Winner :=
  if 5 ≤ b.captured_goats then Winner.Tigers
  else if (tigerPositions b).any (fun p => !(get_valid_tiger_moves b p).isEmpty) then
    Winner.None
  else Winner.Goats

/-- `Board::is_game_over`. -/
def is_game_over (b : Board) : Bool :=
  get_winner b ≠ Winner.None

/-- `Board::get_all_valid_tiger_moves`. -/
def get_all_valid_tiger_moves (b : Board) : List (Nat × Nat) :=
  (tigerPositions b).flatMap (fun p => (get_valid_tiger_moves b p).map (fun t => (p, t)))

/-- `Board::get_all_valid_goat_moves`: placements (`from == to`) over every
empty cell while goats remain in hand (with an early return), otherwise
movement pairs over every on-board goat. -/
def get_all_valid_goat_moves (b : Board) : List (Nat × Nat) :=
  if 0 < b.goats_in_hand then
    ((List.range 25).filter (fun p => cellAt b.cells p = Piece.Empty)).map (fun p => (p, p))
  else
    (goatPositions b).flatMap (fun p => (get_valid_goat_moves b p).map (fun t => (p, t)))

/-- `i32::MIN`, the sentinel used for score initialisation. -/
def i32_min : Int := -(2 ^ 31)

/-- `i32::MAX`. -/
def i32_max : Int := 2 ^ 31 - 1

/-- `self.cells.iter().position(|&piece| piece == Piece::Tiger).unwrap_or(0)`
from the `capturable_goats` term of `evaluate_position`. -/
def first_tiger_pos (b : Board) : Nat :=
  (b.cells.findIdx? (fun p => p == Piece.Tiger)).getD 0

/-- The fixed `strategic_positions` array of `evaluate_position`. -/
def strategic_positions : List Nat :=
  [12, 6, 8, 16, 18, 7, 11, 13, 17]

/-- `Board::evaluate_position`.  Note that the `capturable_goats` term
filters every generated tiger destination against `get_captured_position`
taken **from the first tiger on the board** (`position(..).unwrap_or(0)`),
not from the tiger that generated the move — see the C8 analysis below. -/
def evaluate_position (b : Board) : Int :=
  match get_winner b with
  | Winner.Tigers => 10000
  | Winner.Goats => -10000
  | Winner.None =>
    let capturedScore : Int := (b.captured_goats : Int) * 100
    let trapped : Nat :=
      ((tigerPositions b).filter (fun p => (get_valid_tiger_moves b p).isEmpty)).length
    let strategic : Nat :=
      (strategic_positions.filter (fun p => cellAt b.cells p = Piece.Goat)).length
    let capturable : Nat :=
      (((tigerPositions b).flatMap (fun p => get_valid_tiger_moves b p)).filter
        (fun mp => (get_captured_position b (first_tiger_pos b) mp).isSome)).length
    capturedScore - (trapped : Int) * 50 - (strategic : Int) * 10 + (capturable : Int) * 20

/-- The destructive make step of the search for a tiger move (capture
applied first, then `cells[from] = Empty; cells[to] = Tiger`); the search
restores fields directly, which in this functional embedding means simply
continuing from the unmodified board. -/
def tiger_search_apply (b : Board) (f t : Nat) : Board :=
  match get_captured_position b f t with
  | some p =>
      { b with
          cells := ((b.cells.set p Piece.Empty).set f Piece.Empty).set t Piece.Tiger
          captured_goats := b.captured_goats + 1 }
  | none =>
      { b with cells := (b.cells.set f Piece.Empty).set t Piece.Tiger }

/-- The destructive make step of the `minimax` goat branch: placement when
`from == to`, movement otherwise. -/
def goat_search_apply (b : Board) (f t : Nat) : Board :=
  if f = t then
    { b with cells := b.cells.set t Piece.Goat, goats_in_hand := b.goats_in_hand - 1 }
  else
    { b with cells := (b.cells.set f Piece.Empty).set t Piece.Goat }

/-- `Board::minimax`, depth-indexed.  The timer oracle `timer` abstracts
`start_time.elapsed() >= time_limit`; each entry consumes one poll index.
The alpha/beta `break` is modelled by a `stopped` flag threaded through the
fold over the move list (after a break no further poll is consumed, exactly
as in the source).  The result pairs the score with the next poll index. -/
def minimax (timer : Nat → Bool) : Nat → Board → Int → Int → Bool → Nat → Int × Nat
  | 0, b, _, _, _, k => (evaluate_position b, k + 1)
  | depth + 1, b, alpha, beta, isMax, k =>
    if timer k then (evaluate_position b, k + 1)
    else if is_game_over b then (evaluate_position b, k + 1)
    else if isMax then
      let st := (get_all_valid_tiger_moves b).foldl
        (fun (st : Int × Int × Nat × Bool) m =>
          if st.2.2.2 then st
          else
            let child := tiger_search_apply b m.1 m.2
            let r := minimax timer depth child st.2.1 beta false st.2.2.1
            let maxEval2 := max st.1 r.1
            let alpha2 := max st.2.1 r.1
            (maxEval2, alpha2, r.2, beta ≤ alpha2))
        (i32_min, alpha, k + 1, false)
      (st.1, st.2.2.1)
    else
      let st := (get_all_valid_goat_moves b).foldl
        (fun (st : Int × Int × Nat × Bool) m =>
          if st.2.2.2 then st
          else
            let child := goat_search_apply b m.1 m.2
            let r := minimax timer depth child alpha st.2.1 true st.2.2.1
            let minEval2 := min st.1 r.1
            let beta2 := min st.2.1 r.1
            (minEval2, beta2, r.2, beta2 ≤ alpha))
        (i32_max, beta, k + 1, false)
      (st.1, st.2.2.1)

/-- One full depth pass of the `ai_move_tiger` iterative deepening loop
over the pre-computed move list.  Returns
`(depth_best_move, depth_best_score, next poll index, search_complete)`. -/
def ai_tiger_depth_pass (b : Board) (timer : Nat → Bool) (depth : Nat) :
    List (Nat × Nat) → Option (Nat × Nat) → Int → Nat →
    Option (Nat × Nat) × Int × Nat × Bool
  | [], best, bestScore, k => (best, bestScore, k, true)
  | (f, t) :: rest, best, bestScore, k =>
    if timer k then (best, bestScore, k + 1, false)
    else
      let child := tiger_search_apply b f t
      let r := minimax timer (depth - 1) child i32_min i32_max false (k + 1)
      if bestScore < r.1 then
        ai_tiger_depth_pass b timer depth rest (some (f, t)) r.1 r.2
      else
        ai_tiger_depth_pass b timer depth rest best bestScore r.2

/-- The `while start_time.elapsed() < time_limit` iterative deepening loop
of `ai_move_tiger`, with an explicit fuel bound on the number of
iterations (exhaustion behaves like an expired budget poll). -/
def ai_tiger_loop (b : Board) (timer : Nat → Bool) (moves : List (Nat × Nat)) :
    Nat → Option (Nat × Nat) → Nat → Nat → Option (Nat × Nat)
  | 0, best, _, _ => best
  | fuel + 1, best, depth, k =>
    if timer k then best
    else
      let r := ai_tiger_depth_pass b timer depth moves none i32_min (k + 1)
      if r.2.2.2 then ai_tiger_loop b timer moves fuel r.1 (depth + 1) r.2.2.1
      else best

/-- `Board::ai_move_tiger`. -/
def ai_move_tiger (b : Board) (timer : Nat → Bool) (fuel : Nat) : Board × Bool :=
  let moves := get_all_valid_tiger_moves b
  if moves.isEmpty then (b, false)
  else
    match ai_tiger_loop b timer moves fuel none 1 0 with
    | some (f, t) => move_tiger b f t
    | none => (b, false)

/-- One placement depth pass of `ai_move_goat` (`for pos in 0..25`): the
budget poll happens for every position, the candidate placement only for
empty cells. -/
def ai_goat_place_pass (b : Board) (timer : Nat → Bool) (depth : Nat) :
    List Nat → Option (Nat × Nat) → Int → Nat →
    Option (Nat × Nat) × Int × Nat × Bool
  | [], best, bestScore, k => (best, bestScore, k, true)
  | pos :: rest, best, bestScore, k =>
    if timer k then (best, bestScore, k + 1, false)
    else if cellAt b.cells pos = Piece.Empty then
      let child := { b with
          cells := b.cells.set pos Piece.Goat
          goats_in_hand := b.goats_in_hand - 1 }
      let r := minimax timer (depth - 1) child i32_min i32_max true (k + 1)
      if r.1 < bestScore then
        ai_goat_place_pass b timer depth rest (some (pos, pos)) r.1 r.2
      else
        ai_goat_place_pass b timer depth rest best bestScore r.2
    else ai_goat_place_pass b timer depth rest best bestScore (k + 1)

/-- One movement depth pass of `ai_move_goat`
(`cells[from] = Empty; cells[to] = Goat`, unconditionally a movement). -/
def ai_goat_move_pass (b : Board) (timer : Nat → Bool) (depth : Nat) :
    List (Nat × Nat) → Option (Nat × Nat) → Int → Nat →
    Option (Nat × Nat) × Int × Nat × Bool
  | [], best, bestScore, k => (best, bestScore, k, true)
  | (f, t) :: rest, best, bestScore, k =>
    if timer k then (best, bestScore, k + 1, false)
    else
      let child := { b with cells := (b.cells.set f Piece.Empty).set t Piece.Goat }
      let r := minimax timer (depth - 1) child i32_min i32_max true (k + 1)
      if r.1 < bestScore then
        ai_goat_move_pass b timer depth rest (some (f, t)) r.1 r.2
      else
        ai_goat_move_pass b timer depth rest best bestScore r.2

/-- The iterative deepening loop of `ai_move_goat`: placement passes while
goats remain in hand, movement passes (over a freshly recomputed aggregate
move list) afterwards. -/
def ai_goat_loop (b : Board) (timer : Nat → Bool) :
    Nat → Option (Nat × Nat) → Nat → Nat → Option (Nat × Nat)
  | 0, best, _, _ => best
  | fuel + 1, best, depth, k =>
    if timer k then best
    else
      let r :=
        if 0 < b.goats_in_hand then
          ai_goat_place_pass b timer depth (List.range 25) none i32_max (k + 1)
        else
          ai_goat_move_pass b timer depth (get_all_valid_goat_moves b) none i32_max (k + 1)
      if r.2.2.2 then ai_goat_loop b timer fuel r.1 (depth + 1) r.2.2.1
      else best

/-- `Board::ai_move_goat`: applies the chosen move through `place_goat`
when `from == to` and through `move_goat` otherwise. -/
def ai_move_goat (b : Board) (timer : Nat → Bool) (fuel : Nat) : Board × Bool :=
  match ai_goat_loop b timer fuel none 1 0 with
  | some (f, t) => if f = t then place_goat b f else move_goat b f t
  | none => (b, false)

/-- `Duration::from_secs(2)`, the hard-coded search budget of
`ai_move_tiger` and `ai_move_goat` (lib.rs lines 532 and 606), in seconds. -/
def ai_time_limit_secs : Nat := 2

/-! ## List helper lemmas -/

lemma cellAt_set_eq (l : List Piece) (i : Nat) (x : Piece) (h : i < l.length) :
    cellAt (l.set i x) i = x := by
  induction l generalizing i with
  | nil => simp at h
  | cons a l ih =>
    cases i with
    | zero => simp [cellAt]
    | succ n => simpa [cellAt, List.getD] using ih n (by simpa using h)

lemma cellAt_set_ne (l : List Piece) (i j : Nat) (x : Piece) (h : i ≠ j) :
    cellAt (l.set i x) j = cellAt l j := by
  induction l generalizing i j with
  | nil => simp [cellAt]
  | cons a l ih =>
    cases i with
    | zero =>
      cases j with
      | zero => exact absurd rfl h
      | succ m => simp [cellAt]
    | succ n =>
      cases j with
      | zero => simp [cellAt]
      | succ m =>
        simpa [cellAt, List.getD] using ih n m (by omega)

lemma set_cancel (l : List Piece) (i : Nat) (x : Piece) (h : cellAt l i = x) :
    l.set i x = l := by
  induction l generalizing i with
  | nil => simp
  | cons a l ih =>
    cases i with
    | zero => simp [cellAt] at h; simp [h]
    | succ n =>
      simp only [cellAt, List.getD] at h
      simp [ih n (by simpa [cellAt, List.getD] using h)]

lemma lt_length_of_cellAt_ne (l : List Piece) (i : Nat)
    (h : cellAt l i ≠ Piece.Empty) : i < l.length := by
  by_contra hge
  have hnone : l[i]? = none := List.getElem?_eq_none (by omega)
  simp [cellAt, List.getD, hnone] at h

/-- Occurrence count of a piece value in a cell list. -/
def pcount (y : Piece) : List Piece → Nat
  | [] => 0
  | a :: l => (if a = y then 1 else 0) + pcount y l

lemma pcount_set (y x : Piece) (l : List Piece) (i : Nat) (h : i < l.length) :
    pcount y (l.set i x) + (if cellAt l i = y then 1 else 0)
      = pcount y l + (if x = y then 1 else 0) := by
  induction l generalizing i with
  | nil => simp at h
  | cons a l ih =>
    cases i with
    | zero =>
      simp only [List.set, pcount, cellAt, List.getD_cons_zero]
      split_ifs <;> omega
    | succ n =>
      have hn := ih n (by simpa using h)
      simp only [List.set, pcount, cellAt, List.getD_cons_succ] at *
      split_ifs at * <;> omega

/-! ## Success and failure shapes of the mutating operations -/

lemma place_goat_success {b b2 : Board} {p : Nat}
    (h : place_goat b p = (b2, true)) :
    p < b.cells.length ∧ cellAt b.cells p = Piece.Empty ∧ 0 < b.goats_in_hand ∧
      b2 = { b with
          cells := b.cells.set p Piece.Goat
          goats_in_hand := b.goats_in_hand - 1
          move_history := Move.PlaceGoat p :: b.move_history } := by
  unfold place_goat at h
  split at h
  · simp at h
  · rename_i hc
    push_neg at hc
    obtain ⟨h1, h2, h3⟩ := hc
    simp only [Prod.mk.injEq, and_true] at h
    exact ⟨by omega, h2, by omega, h.symm⟩

lemma move_goat_success {b b2 : Board} {f t : Nat}
    (h : move_goat b f t = (b2, true)) :
    f < b.cells.length ∧ t < b.cells.length ∧
      cellAt b.cells f = Piece.Goat ∧ cellAt b.cells t = Piece.Empty ∧
      t ∈ get_valid_goat_moves b f ∧
      b2 = { b with
          cells := (b.cells.set t Piece.Goat).set f Piece.Empty
          move_history := Move.MoveGoat f t :: b.move_history } := by
  unfold move_goat at h
  split at h
  · simp at h
  rename_i h1
  split at h
  · simp at h
  rename_i h2
  split at h
  · simp at h
  rename_i h3
  split at h
  · simp at h
  rename_i h4
  push_neg at h1 h2 h3 h4
  simp only [Prod.mk.injEq, and_true] at h
  exact ⟨by omega, by omega, h2, h3, h4, h.symm⟩

lemma move_tiger_success {b b2 : Board} {f t : Nat}
    (h : move_tiger b f t = (b2, true)) :
    f < b.cells.length ∧ t < b.cells.length ∧
      cellAt b.cells f = Piece.Tiger ∧ cellAt b.cells t = Piece.Empty ∧
      t ∈ get_valid_tiger_moves b f ∧
      b2 = { b with
          cells := ((match get_captured_position b f t with
              | some p => b.cells.set p Piece.Empty
              | none => b.cells).set t Piece.Tiger).set f Piece.Empty
          captured_goats :=
            (match get_captured_position b f t with
              | some _ => b.captured_goats + 1
              | none => b.captured_goats)
          move_history :=
            Move.MoveTiger f t (get_captured_position b f t) :: b.move_history } := by
  unfold move_tiger at h
  split at h
  · simp at h
  rename_i h1
  split at h
  · simp at h
  rename_i h2
  split at h
  · simp at h
  rename_i h3
  split at h
  · simp at h
  rename_i h4
  push_neg at h1 h2 h3 h4
  simp only [Prod.mk.injEq, and_true] at h
  exact ⟨by omega, by omega, h2, h3, h4, h.symm⟩

lemma get_captured_position_some {b : Board} {f t p : Nat}
    (h : get_captured_position b f t = some p) :
    p = midPos f t ∧ cellAt b.cells (midPos f t) = Piece.Goat := by
  unfold get_captured_position at h
  split at h
  · split at h
    · rename_i hg
      simp only [Option.some.injEq] at h
      exact ⟨h.symm, hg⟩
    · simp at h
  · simp at h

lemma place_goat_cases (b : Board) (p : Nat) :
    place_goat b p = (b, false) ∨ (place_goat b p).2 = true := by
  unfold place_goat
  split
  · exact Or.inl rfl
  · exact Or.inr rfl

lemma move_goat_cases (b : Board) (f t : Nat) :
    move_goat b f t = (b, false) ∨ (move_goat b f t).2 = true := by
  unfold move_goat
  repeat first
  | exact Or.inl rfl
  | exact Or.inr rfl
  | split

lemma move_tiger_cases (b : Board) (f t : Nat) :
    move_tiger b f t = (b, false) ∨ (move_tiger b f t).2 = true := by
  unfold move_tiger
  repeat first
  | exact Or.inl rfl
  | exact Or.inr rfl
  | split

lemma undo_cases (b : Board) :
    undo b = (b, false) ∨ (undo b).2 = true := by
  unfold undo
  repeat first
  | exact Or.inl rfl
  | exact Or.inr rfl
  | split

lemma place_goat_fail {b : Board} {p : Nat}
    (h : (place_goat b p).2 = false) : (place_goat b p).1 = b := by
  rcases place_goat_cases b p with hc | hc
  · rw [hc]
  · rw [h] at hc
    exact Bool.noConfusion hc

lemma move_goat_fail {b : Board} {f t : Nat}
    (h : (move_goat b f t).2 = false) : (move_goat b f t).1 = b := by
  rcases move_goat_cases b f t with hc | hc
  · rw [hc]
  · rw [h] at hc
    exact Bool.noConfusion hc

lemma move_tiger_fail {b : Board} {f t : Nat}
    (h : (move_tiger b f t).2 = false) : (move_tiger b f t).1 = b := by
  rcases move_tiger_cases b f t with hc | hc
  · rw [hc]
  · rw [h] at hc
    exact Bool.noConfusion hc

lemma undo_fail {b : Board}
    (h : (undo b).2 = false) : (undo b).1 = b := by
  rcases undo_cases b with hc | hc
  · rw [hc]
  · rw [h] at hc
    exact Bool.noConfusion hc

/-! ## Undo round-trips -/

lemma undo_place_goat {b b2 : Board} {p : Nat}
    (h : place_goat b p = (b2, true)) :
    (undo b2).2 = true ∧ (undo b2).1.cells = b.cells ∧
      (undo b2).1.goats_in_hand = b.goats_in_hand ∧
      (undo b2).1.captured_goats = b.captured_goats ∧
      (undo b2).1.move_history = b.move_history := by
  obtain ⟨hp, he, hg, rfl⟩ := place_goat_success h
  refine ⟨rfl, ?_, ?_, rfl, rfl⟩
  · show (b.cells.set p Piece.Goat).set p Piece.Empty = b.cells
    rw [List.set_set]
    exact set_cancel _ _ _ he
  · show b.goats_in_hand - 1 + 1 = b.goats_in_hand
    omega

lemma undo_move_goat {b b2 : Board} {f t : Nat}
    (h : move_goat b f t = (b2, true)) :
    (undo b2).2 = true ∧ (undo b2).1.cells = b.cells ∧
      (undo b2).1.goats_in_hand = b.goats_in_hand ∧
      (undo b2).1.captured_goats = b.captured_goats ∧
      (undo b2).1.move_history = b.move_history := by
  obtain ⟨hf, ht, hG, hE, hmem, rfl⟩ := move_goat_success h
  have hft : f ≠ t := by
    intro hh
    rw [hh, hE] at hG
    exact Piece.noConfusion hG
  have hc1 : cellAt (b.cells.set t Piece.Goat) f = Piece.Goat := by
    rw [cellAt_set_ne _ _ _ _ (Ne.symm hft)]
    exact hG
  refine ⟨rfl, ?_, rfl, rfl, rfl⟩
  show (((b.cells.set t Piece.Goat).set f Piece.Empty).set f Piece.Goat).set t
      Piece.Empty = b.cells
  rw [List.set_set, set_cancel _ _ _ hc1, List.set_set]
  exact set_cancel _ _ _ hE

lemma undo_move_tiger {b b2 : Board} {f t : Nat}
    (h : move_tiger b f t = (b2, true)) :
    (undo b2).2 = true ∧ (undo b2).1.cells = b.cells ∧
      (undo b2).1.goats_in_hand = b.goats_in_hand ∧
      (undo b2).1.captured_goats = b.captured_goats ∧
      (undo b2).1.move_history = b.move_history := by
  obtain ⟨hf, ht, hT, hE, hmem, rfl⟩ := move_tiger_success h
  have hft : f ≠ t := by
    intro hh
    rw [hh, hE] at hT
    exact Piece.noConfusion hT
  cases hcap : get_captured_position b f t with
  | none =>
    have hc1 : cellAt (b.cells.set t Piece.Tiger) f = Piece.Tiger := by
      rw [cellAt_set_ne _ _ _ _ (Ne.symm hft)]
      exact hT
    simp only [hcap]
    refine ⟨rfl, ?_, rfl, rfl, rfl⟩
    show (((b.cells.set t Piece.Tiger).set f Piece.Empty).set f Piece.Tiger).set t
        Piece.Empty = b.cells
    rw [List.set_set, set_cancel _ _ _ hc1, List.set_set]
    exact set_cancel _ _ _ hE
  | some p =>
    obtain ⟨rfl, hpG⟩ := get_captured_position_some hcap
    have hpf : midPos f t ≠ f := by
      intro hh
      rw [hh, hT] at hpG
      exact Piece.noConfusion hpG
    have hpt : midPos f t ≠ t := by
      intro hh
      rw [hh, hE] at hpG
      exact Piece.noConfusion hpG
    have hc1 : cellAt ((b.cells.set (midPos f t) Piece.Empty).set t Piece.Tiger) f
        = Piece.Tiger := by
      rw [cellAt_set_ne _ _ _ _ (Ne.symm hft), cellAt_set_ne _ _ _ _ hpf]
      exact hT
    have hc2 : cellAt (b.cells.set (midPos f t) Piece.Empty) t = Piece.Empty := by
      rw [cellAt_set_ne _ _ _ _ hpt]
      exact hE
    simp only [hcap]
    refine ⟨rfl, ?_, rfl, ?_, rfl⟩
    · show (((((b.cells.set (midPos f t) Piece.Empty).set t Piece.Tiger).set f
        Piece.Empty).set f Piece.Tiger).set t Piece.Empty).set (midPos f t)
        Piece.Goat = b.cells
      rw [List.set_set, set_cancel _ _ _ hc1, List.set_set,
        set_cancel _ _ _ hc2, List.set_set]
      exact set_cancel _ _ _ hpG
    · show b.captured_goats + 1 - 1 = b.captured_goats
      omega

/-! ## Reachable states and the counting invariant -/

/-- Consistency of the move history with the current cells and capture
count: every entry on the stack can be exactly inverted by `undo`,
recursively down to the initial board. -/
def GoodHist : List Piece → Nat → List Move → Prop
  | _, _, [] => True
  | cells, cg, Move.PlaceGoat p :: rest =>
      p < cells.length ∧ cellAt cells p = Piece.Goat ∧
        GoodHist (cells.set p Piece.Empty) cg rest
  | cells, cg, Move.MoveGoat f t :: rest =>
      f ≠ t ∧ f < cells.length ∧ t < cells.length ∧
        cellAt cells t = Piece.Goat ∧ cellAt cells f = Piece.Empty ∧
        GoodHist ((cells.set f Piece.Goat).set t Piece.Empty) cg rest
  | cells, cg, Move.MoveTiger f t none :: rest =>
      f ≠ t ∧ f < cells.length ∧ t < cells.length ∧
        cellAt cells t = Piece.Tiger ∧ cellAt cells f = Piece.Empty ∧
        GoodHist ((cells.set f Piece.Tiger).set t Piece.Empty) cg rest
  | cells, cg, Move.MoveTiger f t (some p) :: rest =>
      f ≠ t ∧ p ≠ f ∧ p ≠ t ∧ f < cells.length ∧ t < cells.length ∧
        p < cells.length ∧
        cellAt cells t = Piece.Tiger ∧ cellAt cells f = Piece.Empty ∧
        cellAt cells p = Piece.Empty ∧ 1 ≤ cg ∧
        GoodHist (((cells.set f Piece.Tiger).set t Piece.Empty).set p Piece.Goat)
          (cg - 1) rest

/-- The full induction invariant: fixed board size, four tigers, goat
conservation, and an invertible history. -/
def BoardInv (b : Board) : Prop :=
  b.cells.length = 25 ∧
    pcount Piece.Tiger b.cells = 4 ∧
    pcount Piece.Goat b.cells + b.captured_goats + b.goats_in_hand = 20 ∧
    GoodHist b.cells b.captured_goats b.move_history

/-- States reachable from `Board::new` by any sequence of `place_goat`,
`move_goat`, `move_tiger` and `undo` calls (failing calls leave the board
unchanged, so only the returned board matters). -/
inductive Reachable : Board → Prop
  | init : Reachable Board.new
  | place (b : Board) (p : Nat) : Reachable b → Reachable (place_goat b p).1
  | mgoat (b : Board) (f t : Nat) : Reachable b → Reachable (move_goat b f t).1
  | mtiger (b : Board) (f t : Nat) : Reachable b → Reachable (move_tiger b f t).1
  | undoStep (b : Board) : Reachable b → Reachable (undo b).1

lemma inv_new : BoardInv Board.new := by
  refine ⟨by decide, by decide, ?_, trivial⟩
  show pcount Piece.Goat Board.new.cells + 0 + 20 = 20
  decide

lemma pcount_set_stable (y x : Piece) (l : List Piece) (i : Nat)
    (h : i < l.length) (hx : x ≠ y) (hc : cellAt l i ≠ y) :
    pcount y (l.set i x) = pcount y l := by
  have hh := pcount_set y x l i h
  rw [if_neg hc, if_neg hx] at hh
  omega

lemma pcount_set_incr (y x : Piece) (l : List Piece) (i : Nat)
    (h : i < l.length) (hx : x = y) (hc : cellAt l i ≠ y) :
    pcount y (l.set i x) = pcount y l + 1 := by
  have hh := pcount_set y x l i h
  rw [if_neg hc, if_pos hx] at hh
  omega

lemma pcount_set_decr (y x : Piece) (l : List Piece) (i : Nat)
    (h : i < l.length) (hx : x ≠ y) (hc : cellAt l i = y) :
    pcount y (l.set i x) + 1 = pcount y l := by
  have hh := pcount_set y x l i h
  rw [if_pos hc, if_neg hx] at hh
  omega

lemma inv_place (b : Board) (p : Nat) (hI : BoardInv b) : BoardInv (place_goat b p).1 := by
  rcases place_goat_cases b p with hc | hc
  · rw [hc]
    exact hI
  have hsucc : place_goat b p = ((place_goat b p).1, true) := by
    rw [← hc]
  obtain ⟨hp, he, hg, hb2⟩ := place_goat_success hsucc
  obtain ⟨hlen, hT, hS, hH⟩ := hI
  rw [hb2]
  refine ⟨by simpa using hlen, ?_, ?_, ?_⟩
  · show pcount Piece.Tiger (b.cells.set p Piece.Goat) = 4
    rw [pcount_set_stable _ _ _ _ hp (by decide) (by rw [he]; decide)]
    exact hT
  · show pcount Piece.Goat (b.cells.set p Piece.Goat) + b.captured_goats +
      (b.goats_in_hand - 1) = 20
    have hh := pcount_set_incr Piece.Goat Piece.Goat b.cells p hp rfl
      (by rw [he]; decide)
    omega
  · show GoodHist (b.cells.set p Piece.Goat) b.captured_goats
      (Move.PlaceGoat p :: b.move_history)
    refine ⟨by simpa using hp, cellAt_set_eq _ _ _ hp, ?_⟩
    rw [List.set_set, set_cancel _ _ _ he]
    exact hH

lemma inv_mgoat (b : Board) (f t : Nat) (hI : BoardInv b) :
    BoardInv (move_goat b f t).1 := by
  rcases move_goat_cases b f t with hc | hc
  · rw [hc]
    exact hI
  have hsucc : move_goat b f t = ((move_goat b f t).1, true) := by
    rw [← hc]
  obtain ⟨hf, ht, hG, hE, hmem, hb2⟩ := move_goat_success hsucc
  obtain ⟨hlen, hT, hS, hH⟩ := hI
  have hft : f ≠ t := by
    intro hh
    rw [hh, hE] at hG
    exact Piece.noConfusion hG
  have hf1 : f < (b.cells.set t Piece.Goat).length := by simpa using hf
  have c1T : pcount Piece.Tiger (b.cells.set t Piece.Goat) = pcount Piece.Tiger b.cells :=
    pcount_set_stable _ _ _ _ ht (by decide) (by rw [hE]; decide)
  have c2T : pcount Piece.Tiger ((b.cells.set t Piece.Goat).set f Piece.Empty)
      = pcount Piece.Tiger (b.cells.set t Piece.Goat) :=
    pcount_set_stable _ _ _ _ hf1 (by decide)
      (by rw [cellAt_set_ne _ _ _ _ (Ne.symm hft), hG]; decide)
  have c1G : pcount Piece.Goat (b.cells.set t Piece.Goat) = pcount Piece.Goat b.cells + 1 :=
    pcount_set_incr _ _ _ _ ht rfl (by rw [hE]; decide)
  have c2G : pcount Piece.Goat ((b.cells.set t Piece.Goat).set f Piece.Empty) + 1
      = pcount Piece.Goat (b.cells.set t Piece.Goat) :=
    pcount_set_decr _ _ _ _ hf1 (by decide)
      (by rw [cellAt_set_ne _ _ _ _ (Ne.symm hft)]; exact hG)
  rw [hb2]
  refine ⟨by simpa using hlen, ?_, ?_, ?_⟩
  · show pcount Piece.Tiger ((b.cells.set t Piece.Goat).set f Piece.Empty) = 4
    omega
  · show pcount Piece.Goat ((b.cells.set t Piece.Goat).set f Piece.Empty) +
      b.captured_goats + b.goats_in_hand = 20
    omega
  · show GoodHist ((b.cells.set t Piece.Goat).set f Piece.Empty) b.captured_goats
      (Move.MoveGoat f t :: b.move_history)
    have hcf : cellAt (b.cells.set t Piece.Goat) f = Piece.Goat := by
      rw [cellAt_set_ne _ _ _ _ (Ne.symm hft)]
      exact hG
    refine ⟨hft, by simpa using hf, by simpa using ht, ?_, ?_, ?_⟩
    · rw [cellAt_set_ne _ _ _ _ hft, cellAt_set_eq _ _ _ ht]
    · rw [cellAt_set_eq _ _ _ hf1]
    · rw [List.set_set, set_cancel _ _ _ hcf, List.set_set, set_cancel _ _ _ hE]
      exact hH

lemma inv_mtiger (b : Board) (f t : Nat) (hI : BoardInv b) :
    BoardInv (move_tiger b f t).1 := by
  rcases move_tiger_cases b f t with hc | hc
  · rw [hc]
    exact hI
  have hsucc : move_tiger b f t = ((move_tiger b f t).1, true) := by
    rw [← hc]
  obtain ⟨hf, ht, hG, hE, hmem, hb2⟩ := move_tiger_success hsucc
  obtain ⟨hlen, hT, hS, hH⟩ := hI
  have hft : f ≠ t := by
    intro hh
    rw [hh, hE] at hG
    exact Piece.noConfusion hG
  cases hcap : get_captured_position b f t with
  | none =>
    rw [hcap] at hb2
    simp only [] at hb2
    have hf1 : f < (b.cells.set t Piece.Tiger).length := by simpa using hf
    have c1T : pcount Piece.Tiger (b.cells.set t Piece.Tiger)
        = pcount Piece.Tiger b.cells + 1 :=
      pcount_set_incr _ _ _ _ ht rfl (by rw [hE]; decide)
    have c2T : pcount Piece.Tiger ((b.cells.set t Piece.Tiger).set f Piece.Empty) + 1
        = pcount Piece.Tiger (b.cells.set t Piece.Tiger) :=
      pcount_set_decr _ _ _ _ hf1 (by decide)
        (by rw [cellAt_set_ne _ _ _ _ (Ne.symm hft)]; exact hG)
    have c1G : pcount Piece.Goat (b.cells.set t Piece.Tiger)
        = pcount Piece.Goat b.cells :=
      pcount_set_stable _ _ _ _ ht (by decide) (by rw [hE]; decide)
    have c2G : pcount Piece.Goat ((b.cells.set t Piece.Tiger).set f Piece.Empty)
        = pcount Piece.Goat (b.cells.set t Piece.Tiger) :=
      pcount_set_stable _ _ _ _ hf1 (by decide)
        (by rw [cellAt_set_ne _ _ _ _ (Ne.symm hft), hG]; decide)
    rw [hb2]
    refine ⟨by simpa using hlen, ?_, ?_, ?_⟩
    · show pcount Piece.Tiger ((b.cells.set t Piece.Tiger).set f Piece.Empty) = 4
      omega
    · show pcount Piece.Goat ((b.cells.set t Piece.Tiger).set f Piece.Empty) +
        b.captured_goats + b.goats_in_hand = 20
      omega
    · show GoodHist ((b.cells.set t Piece.Tiger).set f Piece.Empty) b.captured_goats
        (Move.MoveTiger f t none :: b.move_history)
      have hcf : cellAt (b.cells.set t Piece.Tiger) f = Piece.Tiger := by
        rw [cellAt_set_ne _ _ _ _ (Ne.symm hft)]
        exact hG
      refine ⟨hft, by simpa using hf, by simpa using ht, ?_, ?_, ?_⟩
      · rw [cellAt_set_ne _ _ _ _ hft, cellAt_set_eq _ _ _ ht]
      · rw [cellAt_set_eq _ _ _ hf1]
      · rw [List.set_set, set_cancel _ _ _ hcf, List.set_set, set_cancel _ _ _ hE]
        exact hH
  | some p =>
    obtain ⟨rfl, hmG⟩ := get_captured_position_some hcap
    rw [hcap] at hb2
    simp only [] at hb2
    have hm : midPos f t < b.cells.length :=
      lt_length_of_cellAt_ne _ _ (by rw [hmG]; decide)
    have hpf : midPos f t ≠ f := by
      intro hh
      rw [hh, hG] at hmG
      exact Piece.noConfusion hmG
    have hpt : midPos f t ≠ t := by
      intro hh
      rw [hh, hE] at hmG
      exact Piece.noConfusion hmG
    have ht0 : t < (b.cells.set (midPos f t) Piece.Empty).length := by simpa using ht
    have hf1 : f < ((b.cells.set (midPos f t) Piece.Empty).set t Piece.Tiger).length := by
      simpa using hf
    have c0T : pcount Piece.Tiger (b.cells.set (midPos f t) Piece.Empty)
        = pcount Piece.Tiger b.cells :=
      pcount_set_stable _ _ _ _ hm (by decide) (by rw [hmG]; decide)
    have c1T : pcount Piece.Tiger
        ((b.cells.set (midPos f t) Piece.Empty).set t Piece.Tiger)
        = pcount Piece.Tiger (b.cells.set (midPos f t) Piece.Empty) + 1 :=
      pcount_set_incr _ _ _ _ ht0 rfl
        (by rw [cellAt_set_ne _ _ _ _ hpt, hE]; decide)
    have c2T : pcount Piece.Tiger
        (((b.cells.set (midPos f t) Piece.Empty).set t Piece.Tiger).set f Piece.Empty) + 1
        = pcount Piece.Tiger ((b.cells.set (midPos f t) Piece.Empty).set t Piece.Tiger) :=
      pcount_set_decr _ _ _ _ hf1 (by decide)
        (by rw [cellAt_set_ne _ _ _ _ (Ne.symm hft),
              cellAt_set_ne _ _ _ _ hpf]
            exact hG)
    have c0G : pcount Piece.Goat (b.cells.set (midPos f t) Piece.Empty) + 1
        = pcount Piece.Goat b.cells :=
      pcount_set_decr _ _ _ _ hm (by decide) hmG
    have c1G : pcount Piece.Goat
        ((b.cells.set (midPos f t) Piece.Empty).set t Piece.Tiger)
        = pcount Piece.Goat (b.cells.set (midPos f t) Piece.Empty) :=
      pcount_set_stable _ _ _ _ ht0 (by decide)
        (by rw [cellAt_set_ne _ _ _ _ hpt, hE]; decide)
    have c2G : pcount Piece.Goat
        (((b.cells.set (midPos f t) Piece.Empty).set t Piece.Tiger).set f Piece.Empty)
        = pcount Piece.Goat ((b.cells.set (midPos f t) Piece.Empty).set t Piece.Tiger) :=
      pcount_set_stable _ _ _ _ hf1 (by decide)
        (by rw [cellAt_set_ne _ _ _ _ (Ne.symm hft),
              cellAt_set_ne _ _ _ _ hpf, hG]
            decide)
    rw [hb2]
    refine ⟨by simpa using hlen, ?_, ?_, ?_⟩
    · show pcount Piece.Tiger
        (((b.cells.set (midPos f t) Piece.Empty).set t Piece.Tiger).set f Piece.Empty) = 4
      omega
    · show pcount Piece.Goat
        (((b.cells.set (midPos f t) Piece.Empty).set t Piece.Tiger).set f Piece.Empty) +
        (b.captured_goats + 1) + b.goats_in_hand = 20
      omega
    · show GoodHist
        (((b.cells.set (midPos f t) Piece.Empty).set t Piece.Tiger).set f Piece.Empty)
        (b.captured_goats + 1)
        (Move.MoveTiger f t (some (midPos f t)) :: b.move_history)
      have hcf : cellAt ((b.cells.set (midPos f t) Piece.Empty).set t Piece.Tiger) f
          = Piece.Tiger := by
        rw [cellAt_set_ne _ _ _ _ (Ne.symm hft), cellAt_set_ne _ _ _ _ hpf]
        exact hG
      have hct : cellAt (b.cells.set (midPos f t) Piece.Empty) t = Piece.Empty := by
        rw [cellAt_set_ne _ _ _ _ hpt]
        exact hE
      refine ⟨hft, hpf, hpt, by simpa using hf, by simpa using ht, by simpa using hm,
        ?_, ?_, ?_, by omega, ?_⟩
      · rw [cellAt_set_ne _ _ _ _ hft, cellAt_set_eq _ _ _ ht0]
      · rw [cellAt_set_eq _ _ _ hf1]
      · rw [cellAt_set_ne _ _ _ _ (fun hh => hpf hh.symm),
          cellAt_set_ne _ _ _ _ (fun hh => hpt hh.symm), cellAt_set_eq _ _ _ hm]
      · rw [List.set_set, set_cancel _ _ _ hcf, List.set_set, set_cancel _ _ _ hct,
          List.set_set, set_cancel _ _ _ hmG]
        exact hH

lemma inv_undo (b : Board) (hI : BoardInv b) : BoardInv (undo b).1 := by
  obtain ⟨hlen, hT, hS, hH⟩ := hI
  rcases hhist : b.move_history with _ | ⟨m, rest⟩
  · have hu : undo b = (b, false) := by
      unfold undo
      rw [hhist]
    rw [hu]
    exact ⟨hlen, hT, hS, hH⟩
  rw [hhist] at hH
  cases m with
  | PlaceGoat p =>
    obtain ⟨hp, hpG, hrest⟩ := hH
    have hu : (undo b).1 = { b with
        cells := b.cells.set p Piece.Empty
        goats_in_hand := b.goats_in_hand + 1
        selected_position := none
        move_history := rest } := by
      unfold undo
      rw [hhist]
    rw [hu]
    refine ⟨by simpa using hlen, ?_, ?_, hrest⟩
    · show pcount Piece.Tiger (b.cells.set p Piece.Empty) = 4
      rw [pcount_set_stable _ _ _ _ hp (by decide) (by rw [hpG]; decide)]
      exact hT
    · show pcount Piece.Goat (b.cells.set p Piece.Empty) + b.captured_goats +
        (b.goats_in_hand + 1) = 20
      have hh := pcount_set_decr Piece.Goat Piece.Empty b.cells p hp (by decide) hpG
      omega
  | MoveGoat f t =>
    obtain ⟨hft, hf, ht, htG, hfE, hrest⟩ := hH
    have hf0 : f < b.cells.length := hf
    have ht1 : t < (b.cells.set f Piece.Goat).length := by simpa using ht
    have hu : (undo b).1 = { b with
        cells := (b.cells.set f Piece.Goat).set t Piece.Empty
        selected_position := none
        move_history := rest } := by
      unfold undo
      rw [hhist]
    rw [hu]
    have c1T : pcount Piece.Tiger (b.cells.set f Piece.Goat)
        = pcount Piece.Tiger b.cells :=
      pcount_set_stable _ _ _ _ hf0 (by decide) (by rw [hfE]; decide)
    have c1G : pcount Piece.Goat (b.cells.set f Piece.Goat)
        = pcount Piece.Goat b.cells + 1 :=
      pcount_set_incr _ _ _ _ hf0 rfl (by rw [hfE]; decide)
    have c2T : pcount Piece.Tiger ((b.cells.set f Piece.Goat).set t Piece.Empty)
        = pcount Piece.Tiger (b.cells.set f Piece.Goat) :=
      pcount_set_stable _ _ _ _ ht1 (by decide)
        (by rw [cellAt_set_ne _ _ _ _ hft, htG]; decide)
    have c2G : pcount Piece.Goat ((b.cells.set f Piece.Goat).set t Piece.Empty) + 1
        = pcount Piece.Goat (b.cells.set f Piece.Goat) :=
      pcount_set_decr _ _ _ _ ht1 (by decide)
        (by rw [cellAt_set_ne _ _ _ _ hft]; exact htG)
    refine ⟨by simpa using hlen, ?_, ?_, hrest⟩
    · show pcount Piece.Tiger ((b.cells.set f Piece.Goat).set t Piece.Empty) = 4
      omega
    · show pcount Piece.Goat ((b.cells.set f Piece.Goat).set t Piece.Empty) +
        b.captured_goats + b.goats_in_hand = 20
      omega
  | MoveTiger f t cap =>
    cases cap with
    | none =>
      obtain ⟨hft, hf, ht, htT, hfE, hrest⟩ := hH
      have hf0 : f < b.cells.length := hf
      have ht1 : t < (b.cells.set f Piece.Tiger).length := by simpa using ht
      have hu : (undo b).1 = { b with
          cells := (b.cells.set f Piece.Tiger).set t Piece.Empty
          selected_position := none
          move_history := rest } := by
        unfold undo
        rw [hhist]
      rw [hu]
      have c1T : pcount Piece.Tiger (b.cells.set f Piece.Tiger)
          = pcount Piece.Tiger b.cells + 1 :=
        pcount_set_incr _ _ _ _ hf0 rfl (by rw [hfE]; decide)
      have c1G : pcount Piece.Goat (b.cells.set f Piece.Tiger)
          = pcount Piece.Goat b.cells :=
        pcount_set_stable _ _ _ _ hf0 (by decide) (by rw [hfE]; decide)
      have c2T : pcount Piece.Tiger ((b.cells.set f Piece.Tiger).set t Piece.Empty) + 1
          = pcount Piece.Tiger (b.cells.set f Piece.Tiger) :=
        pcount_set_decr _ _ _ _ ht1 (by decide)
          (by rw [cellAt_set_ne _ _ _ _ hft]; exact htT)
      have c2G : pcount Piece.Goat ((b.cells.set f Piece.Tiger).set t Piece.Empty)
          = pcount Piece.Goat (b.cells.set f Piece.Tiger) :=
        pcount_set_stable _ _ _ _ ht1 (by decide)
          (by rw [cellAt_set_ne _ _ _ _ hft, htT]; decide)
      refine ⟨by simpa using hlen, ?_, ?_, hrest⟩
      · show pcount Piece.Tiger ((b.cells.set f Piece.Tiger).set t Piece.Empty) = 4
        omega
      · show pcount Piece.Goat ((b.cells.set f Piece.Tiger).set t Piece.Empty) +
          b.captured_goats + b.goats_in_hand = 20
        omega
    | some p =>
      obtain ⟨hft, hpf, hpt, hf, ht, hp, htT, hfE, hpE, hcg, hrest⟩ := hH
      have hf0 : f < b.cells.length := hf
      have ht1 : t < (b.cells.set f Piece.Tiger).length := by simpa using ht
      have hp2 : p < ((b.cells.set f Piece.Tiger).set t Piece.Empty).length := by
        simpa using hp
      have hu : (undo b).1 = { b with
          cells := ((b.cells.set f Piece.Tiger).set t Piece.Empty).set p Piece.Goat
          captured_goats := b.captured_goats - 1
          selected_position := none
          move_history := rest } := by
        unfold undo
        rw [hhist]
      rw [hu]
      have c1T : pcount Piece.Tiger (b.cells.set f Piece.Tiger)
          = pcount Piece.Tiger b.cells + 1 :=
        pcount_set_incr _ _ _ _ hf0 rfl (by rw [hfE]; decide)
      have c1G : pcount Piece.Goat (b.cells.set f Piece.Tiger)
          = pcount Piece.Goat b.cells :=
        pcount_set_stable _ _ _ _ hf0 (by decide) (by rw [hfE]; decide)
      have c2T : pcount Piece.Tiger ((b.cells.set f Piece.Tiger).set t Piece.Empty) + 1
          = pcount Piece.Tiger (b.cells.set f Piece.Tiger) :=
        pcount_set_decr _ _ _ _ ht1 (by decide)
          (by rw [cellAt_set_ne _ _ _ _ hft]; exact htT)
      have c2G : pcount Piece.Goat ((b.cells.set f Piece.Tiger).set t Piece.Empty)
          = pcount Piece.Goat (b.cells.set f Piece.Tiger) :=
        pcount_set_stable _ _ _ _ ht1 (by decide)
          (by rw [cellAt_set_ne _ _ _ _ hft, htT]; decide)
      have c3T : pcount Piece.Tiger
          (((b.cells.set f Piece.Tiger).set t Piece.Empty).set p Piece.Goat)
          = pcount Piece.Tiger ((b.cells.set f Piece.Tiger).set t Piece.Empty) :=
        pcount_set_stable _ _ _ _ hp2 (by decide)
          (by rw [cellAt_set_ne _ _ _ _ (fun hh => hpt hh.symm),
                cellAt_set_ne _ _ _ _ (fun hh => hpf hh.symm), hpE]
              decide)
      have c3G : pcount Piece.Goat
          (((b.cells.set f Piece.Tiger).set t Piece.Empty).set p Piece.Goat)
          = pcount Piece.Goat ((b.cells.set f Piece.Tiger).set t Piece.Empty) + 1 :=
        pcount_set_incr _ _ _ _ hp2 rfl
          (by rw [cellAt_set_ne _ _ _ _ (fun hh => hpt hh.symm),
                cellAt_set_ne _ _ _ _ (fun hh => hpf hh.symm), hpE]
              decide)
      refine ⟨by simpa using hlen, ?_, ?_, hrest⟩
      · show pcount Piece.Tiger
          (((b.cells.set f Piece.Tiger).set t Piece.Empty).set p Piece.Goat) = 4
        omega
      · show pcount Piece.Goat
          (((b.cells.set f Piece.Tiger).set t Piece.Empty).set p Piece.Goat) +
          (b.captured_goats - 1) + b.goats_in_hand = 20
        omega

lemma reachable_inv {b : Board} (h : Reachable b) : BoardInv b := by
  induction h with
  | init => exact inv_new
  | place b p _ ih => exact inv_place b p ih
  | mgoat b f t _ ih => exact inv_mgoat b f t ih
  | mtiger b f t _ ih => exact inv_mtiger b f t ih
  | undoStep b _ ih => exact inv_undo b ih
lemma winner_mobile_iff (b : Board) :
    ((tigerPositions b).any (fun p => !(get_valid_tiger_moves b p).isEmpty) = true)
      ↔ get_all_valid_tiger_moves b ≠ [] := by
  rw [List.any_eq_true]
  unfold get_all_valid_tiger_moves
  rw [Ne, List.flatMap_eq_nil_iff]
  push_neg
  simp [List.isEmpty_iff]

lemma get_winner_tigers_iff (b : Board) :
    get_winner b = Winner.Tigers ↔ 5 ≤ b.captured_goats := by
  unfold get_winner
  split
  · rename_i h5
    simp [h5]
  · rename_i h5
    split <;> simp [h5]

lemma get_winner_goats_iff (b : Board) :
    get_winner b = Winner.Goats ↔
      b.captured_goats < 5 ∧ get_all_valid_tiger_moves b = [] := by
  have hmob := winner_mobile_iff b
  unfold get_winner
  split
  · rename_i h5
    constructor
    · intro hh
      exact Winner.noConfusion hh
    · rintro ⟨hlt, -⟩
      omega
  · rename_i h5
    split
    · rename_i hany
      constructor
      · intro hh
        exact Winner.noConfusion hh
      · rintro ⟨-, hnil⟩
        exact absurd (hmob.mp hany) (by simp [hnil])
    · rename_i hany
      constructor
      · intro hwg
        refine ⟨by omega, ?_⟩
        by_contra hne
        exact hany (hmob.mpr hne)
      · intro hconj
        rfl

lemma get_winner_none_iff (b : Board) :
    get_winner b = Winner.None ↔
      b.captured_goats < 5 ∧ get_all_valid_tiger_moves b ≠ [] := by
  have hmob := winner_mobile_iff b
  unfold get_winner
  split
  · rename_i h5
    constructor
    · intro hh
      exact Winner.noConfusion hh
    · rintro ⟨hlt, -⟩
      omega
  · rename_i h5
    split
    · rename_i hany
      exact ⟨fun _ => ⟨by omega, hmob.mp hany⟩, fun _ => rfl⟩
    · rename_i hany
      constructor
      · intro hh
        exact Winner.noConfusion hh
      · rintro ⟨-, hne⟩
        exact absurd (hmob.mpr hne) hany

lemma is_game_over_iff (b : Board) :
    is_game_over b = true ↔ get_winner b ≠ Winner.None := by
  simp [is_game_over]
lemma mem_tiger_aggregate {b : Board} {f t : Nat} :
    (f, t) ∈ get_all_valid_tiger_moves b ↔
      f < b.cells.length ∧ cellAt b.cells f = Piece.Tiger ∧
        t ∈ get_valid_tiger_moves b f := by
  unfold get_all_valid_tiger_moves tigerPositions
  simp only [List.mem_flatMap, List.mem_map, List.mem_filter, List.mem_range]
  constructor
  · rintro ⟨p, ⟨hp, hT⟩, m, hm, heq⟩
    obtain ⟨rfl, rfl⟩ := Prod.mk.injEq .. |>.mp heq
    exact ⟨hp, by simpa using hT, hm⟩
  · rintro ⟨hp, hT, hm⟩
    exact ⟨f, ⟨hp, by simpa using hT⟩, t, hm, rfl⟩

lemma mem_goat_aggregate_movement {b : Board} {f t : Nat}
    (hih : b.goats_in_hand = 0) :
    ((f, t) ∈ get_all_valid_goat_moves b ↔
      f < b.cells.length ∧ cellAt b.cells f = Piece.Goat ∧
        t ∈ get_valid_goat_moves b f) := by
  unfold get_all_valid_goat_moves goatPositions
  rw [if_neg (by omega)]
  simp only [List.mem_flatMap, List.mem_map, List.mem_filter, List.mem_range]
  constructor
  · rintro ⟨p, ⟨hp, hT⟩, m, hm, heq⟩
    obtain ⟨rfl, rfl⟩ := Prod.mk.injEq .. |>.mp heq
    exact ⟨hp, by simpa using hT, hm⟩
  · rintro ⟨hp, hT, hm⟩
    exact ⟨f, ⟨hp, by simpa using hT⟩, t, hm, rfl⟩

lemma mem_goat_aggregate_placement {b : Board} {f t : Nat}
    (hih : 0 < b.goats_in_hand) :
    ((f, t) ∈ get_all_valid_goat_moves b ↔
      f = t ∧ f < 25 ∧ cellAt b.cells f = Piece.Empty) := by
  unfold get_all_valid_goat_moves
  rw [if_pos hih]
  simp only [List.mem_map, List.mem_filter, List.mem_range]
  constructor
  · rintro ⟨p, ⟨hp, hE⟩, heq⟩
    obtain ⟨rfl, rfl⟩ := Prod.mk.injEq .. |>.mp heq
    exact ⟨rfl, hp, by simpa using hE⟩
  · rintro ⟨rfl, hp, hE⟩
    exact ⟨f, ⟨hp, by simpa using hE⟩, rfl⟩
lemma tigerCheck_some_elim {cells : List Piece} {row col : Int} {c : Int × Int} {t : Nat}
    (h : tigerCheck cells row col c = some t) :
    (0 ≤ c.1 ∧ c.1 < 5 ∧ 0 ≤ c.2 ∧ c.2 < 5) ∧
      t = (c.1 * 5 + c.2).toNat ∧
      cellAt cells t = Piece.Empty ∧
      ((c.1 - row).natAbs = (c.2 - col).natAbs → is_diagonal_allowed t = true) ∧
      (((c.1 - row).natAbs = 2 ∨ (c.2 - col).natAbs = 2) →
        cellAt cells (((row + c.1) / 2 * 5 + (col + c.2) / 2).toNat) = Piece.Goat ∧
        ((c.1 - row).natAbs = (c.2 - col).natAbs →
          is_diagonal_allowed (((row + c.1) / 2 * 5 + (col + c.2) / 2).toNat) = true)) := by
  unfold tigerCheck at h
  split at h
  case isFalse => exact Option.noConfusion h
  case isTrue hb =>
    simp only [] at h
    split at h
    case isTrue => exact Option.noConfusion h
    case isFalse hg1 =>
      push_neg at hg1
      split at h
      case isTrue hj =>
        split at h
        case isTrue => exact Option.noConfusion h
        case isFalse hg2 =>
          push_neg at hg2
          split at h
          case isFalse => exact Option.noConfusion h
          case isTrue hge =>
            obtain ⟨hgoat, hempty⟩ := hge
            obtain rfl := (Option.some.injEq .. |>.mp h).symm
            refine ⟨hb, rfl, hempty, ?_, fun _ => ⟨hgoat, ?_⟩⟩
            · intro hd
              exact Bool.ne_false_iff.mp (hg1 hd)
            · intro hd
              exact Bool.ne_false_iff.mp (hg2 hd)
      case isFalse hnj =>
        split at h
        case isFalse => exact Option.noConfusion h
        case isTrue hempty =>
          obtain rfl := (Option.some.injEq .. |>.mp h).symm
          refine ⟨hb, rfl, hempty, ?_, fun hj => absurd hj hnj⟩
          intro hd
          exact Bool.ne_false_iff.mp (hg1 hd)
lemma goatCheck_some_elim {cells : List Piece} {row col : Int} {c : Int × Int} {t : Nat}
    (h : goatCheck cells row col c = some t) :
    (0 ≤ c.1 ∧ c.1 < 5 ∧ 0 ≤ c.2 ∧ c.2 < 5) ∧
      t = (c.1 * 5 + c.2).toNat ∧
      cellAt cells t = Piece.Empty ∧
      ((c.1 - row).natAbs = (c.2 - col).natAbs → is_diagonal_allowed t = true) := by
  unfold goatCheck at h
  split at h
  case isFalse => exact Option.noConfusion h
  case isTrue hb =>
    simp only [] at h
    split at h
    case isTrue => exact Option.noConfusion h
    case isFalse hg1 =>
      push_neg at hg1
      split at h
      case isFalse => exact Option.noConfusion h
      case isTrue hempty =>
        obtain rfl := (Option.some.injEq .. |>.mp h).symm
        exact ⟨hb, rfl, hempty, fun hd => Bool.ne_false_iff.mp (hg1 hd)⟩

lemma candidate_coords {c : Int × Int} {t : Nat}
    (hb : 0 ≤ c.1 ∧ c.1 < 5 ∧ 0 ≤ c.2 ∧ c.2 < 5)
    (ht : t = (c.1 * 5 + c.2).toNat) :
    c.1 = ((t / 5 : Nat) : Int) ∧ c.2 = ((t % 5 : Nat) : Int) ∧ t < 25 := by
  omega

lemma tigerCandidates_mem_cases {pos : Nat} {c : Int × Int}
    (hc : c ∈ tigerCandidates pos) :
    c ∈ tigerOrthCandidates ((pos / 5 : Nat) : Int) ((pos % 5 : Nat) : Int) ∨
      (is_diagonal_allowed pos = true ∧
        c ∈ tigerDiagCandidates ((pos / 5 : Nat) : Int) ((pos % 5 : Nat) : Int)) := by
  unfold tigerCandidates at hc
  rcases List.mem_append.mp hc with hm | hm
  · exact Or.inl hm
  · split at hm
    · exact Or.inr ⟨by assumption, hm⟩
    · exact absurd hm (List.not_mem_nil c)

lemma tigerOrth_zero {row col : Int} {c : Int × Int}
    (hc : c ∈ tigerOrthCandidates row col) :
    c.1 = row ∨ c.2 = col := by
  simp only [tigerOrthCandidates, List.mem_cons, List.not_mem_nil, or_false] at hc
  rcases hc with rfl | rfl | rfl | rfl | rfl | rfl | rfl | rfl <;> simp

lemma tigerCandidates_offsets {pos : Nat} {c : Int × Int}
    (hc : c ∈ tigerCandidates pos) :
    (c.1 - ((pos / 5 : Nat) : Int)).natAbs ≤ 2 ∧
      (c.2 - ((pos % 5 : Nat) : Int)).natAbs ≤ 2 := by
  rcases tigerCandidates_mem_cases hc with hm | ⟨-, hm⟩
  · simp only [tigerOrthCandidates, List.mem_cons, List.not_mem_nil, or_false] at hm
    rcases hm with rfl | rfl | rfl | rfl | rfl | rfl | rfl | rfl <;>
      refine ⟨?_, ?_⟩ <;> simp
  · simp only [tigerDiagCandidates, List.mem_cons, List.not_mem_nil, or_false] at hm
    rcases hm with rfl | rfl | rfl | rfl | rfl | rfl | rfl | rfl <;>
      refine ⟨?_, ?_⟩ <;> simp

lemma goatCandidates_mem_cases {pos : Nat} {c : Int × Int}
    (hc : c ∈ goatCandidates pos) :
    c ∈ [(((pos / 5 : Nat) : Int) - 1, ((pos % 5 : Nat) : Int)),
         (((pos / 5 : Nat) : Int) + 1, ((pos % 5 : Nat) : Int)),
         (((pos / 5 : Nat) : Int), ((pos % 5 : Nat) : Int) - 1),
         (((pos / 5 : Nat) : Int), ((pos % 5 : Nat) : Int) + 1)] ∨
      (is_diagonal_allowed pos = true ∧
        c ∈ [(((pos / 5 : Nat) : Int) - 1, ((pos % 5 : Nat) : Int) - 1),
             (((pos / 5 : Nat) : Int) - 1, ((pos % 5 : Nat) : Int) + 1),
             (((pos / 5 : Nat) : Int) + 1, ((pos % 5 : Nat) : Int) - 1),
             (((pos / 5 : Nat) : Int) + 1, ((pos % 5 : Nat) : Int) + 1)]) := by
  unfold goatCandidates at hc
  rcases List.mem_append.mp hc with hm | hm
  · exact Or.inl hm
  · split at hm
    · exact Or.inr ⟨by assumption, hm⟩
    · exact absurd hm (List.not_mem_nil c)
lemma tiger_move_dest {b : Board} {pos t : Nat} (h : t ∈ get_valid_tiger_moves b pos) :
    t < 25 ∧ cellAt b.cells t = Piece.Empty := by
  obtain ⟨c, hc, hchk⟩ := List.mem_filterMap.mp h
  obtain ⟨hb, ht, hempty, -, -⟩ := tigerCheck_some_elim hchk
  obtain ⟨-, -, hlt⟩ := candidate_coords hb ht
  exact ⟨hlt, hempty⟩

lemma goat_move_dest {b : Board} {pos t : Nat} (h : t ∈ get_valid_goat_moves b pos) :
    t < 25 ∧ cellAt b.cells t = Piece.Empty := by
  obtain ⟨c, hc, hchk⟩ := List.mem_filterMap.mp h
  obtain ⟨hb, ht, hempty, -⟩ := goatCheck_some_elim hchk
  obtain ⟨-, -, hlt⟩ := candidate_coords hb ht
  exact ⟨hlt, hempty⟩

set_option maxHeartbeats 1600000 in
lemma tiger_move_jump {b : Board} {pos t : Nat} (h : t ∈ get_valid_tiger_moves b pos)
    (hd : 1 < (((pos / 5 : Nat) : Int) - ((t / 5 : Nat) : Int)).natAbs ∨
      1 < (((pos % 5 : Nat) : Int) - ((t % 5 : Nat) : Int)).natAbs) :
    cellAt b.cells (midPos pos t) = Piece.Goat := by
  obtain ⟨c, hcand, hchk⟩ := List.mem_filterMap.mp h
  obtain ⟨hb, htq, hempty, hdg, hjump⟩ := tigerCheck_some_elim hchk
  obtain ⟨hc1, hc2, hlt⟩ := candidate_coords hb htq
  obtain ⟨ho1, ho2⟩ := tigerCandidates_offsets hcand
  clear hchk h hcand
  have hj : (c.1 - ((pos / 5 : Nat) : Int)).natAbs = 2 ∨
      (c.2 - ((pos % 5 : Nat) : Int)).natAbs = 2 := by
    omega
  obtain ⟨hgoat, -⟩ := hjump hj
  have hmid : ((((pos / 5 : Nat) : Int) + c.1) / 2 * 5 +
      (((pos % 5 : Nat) : Int) + c.2) / 2).toNat = midPos pos t := by
    unfold midPos
    omega
  rw [hmid] at hgoat
  exact hgoat

lemma get_captured_position_of_jump {b : Board} {pos t : Nat}
    (h : t ∈ get_valid_tiger_moves b pos)
    (hd : 1 < (((pos / 5 : Nat) : Int) - ((t / 5 : Nat) : Int)).natAbs ∨
      1 < (((pos % 5 : Nat) : Int) - ((t % 5 : Nat) : Int)).natAbs) :
    get_captured_position b pos t = some (midPos pos t) := by
  have hgoat := tiger_move_jump h hd
  unfold get_captured_position
  rw [if_pos hd, if_pos hgoat]

set_option maxHeartbeats 1600000 in
lemma tiger_move_diag {b : Board} {pos t : Nat} (h : t ∈ get_valid_tiger_moves b pos)
    (hdiag : (((pos / 5 : Nat) : Int) - ((t / 5 : Nat) : Int)).natAbs
      = (((pos % 5 : Nat) : Int) - ((t % 5 : Nat) : Int)).natAbs)
    (hne : (((pos / 5 : Nat) : Int) - ((t / 5 : Nat) : Int)).natAbs ≠ 0) :
    is_diagonal_allowed pos = true ∧ is_diagonal_allowed t = true ∧
      ((((pos / 5 : Nat) : Int) - ((t / 5 : Nat) : Int)).natAbs = 2 →
        is_diagonal_allowed (midPos pos t) = true) := by
  obtain ⟨c, hcand, hchk⟩ := List.mem_filterMap.mp h
  obtain ⟨hb, htq, hempty, hdg, hjump⟩ := tigerCheck_some_elim hchk
  obtain ⟨hc1, hc2, hlt⟩ := candidate_coords hb htq
  clear hchk h
  have hcdiag : (c.1 - ((pos / 5 : Nat) : Int)).natAbs
      = (c.2 - ((pos % 5 : Nat) : Int)).natAbs := by
    omega
  have hposall : is_diagonal_allowed pos = true := by
    rcases tigerCandidates_mem_cases hcand with hm | ⟨hall, -⟩
    · exfalso
      rcases tigerOrth_zero hm with h0 | h0 <;> omega
    · exact hall
  refine ⟨hposall, hdg hcdiag, ?_⟩
  intro h2
  have hj : (c.1 - ((pos / 5 : Nat) : Int)).natAbs = 2 ∨
      (c.2 - ((pos % 5 : Nat) : Int)).natAbs = 2 := by
    omega
  obtain ⟨-, hmidall⟩ := hjump hj
  have hmid : ((((pos / 5 : Nat) : Int) + c.1) / 2 * 5 +
      (((pos % 5 : Nat) : Int) + c.2) / 2).toNat = midPos pos t := by
    unfold midPos
    omega
  rw [hmid] at hmidall
  exact hmidall hcdiag

set_option maxHeartbeats 1600000 in
lemma goat_move_diag {b : Board} {pos t : Nat} (h : t ∈ get_valid_goat_moves b pos)
    (hdiag : (((pos / 5 : Nat) : Int) - ((t / 5 : Nat) : Int)).natAbs
      = (((pos % 5 : Nat) : Int) - ((t % 5 : Nat) : Int)).natAbs)
    (hne : (((pos / 5 : Nat) : Int) - ((t / 5 : Nat) : Int)).natAbs ≠ 0) :
    is_diagonal_allowed pos = true ∧ is_diagonal_allowed t = true := by
  obtain ⟨c, hcand, hchk⟩ := List.mem_filterMap.mp h
  obtain ⟨hb, htq, hempty, hdg⟩ := goatCheck_some_elim hchk
  obtain ⟨hc1, hc2, hlt⟩ := candidate_coords hb htq
  clear hchk h
  have hcdiag : (c.1 - ((pos / 5 : Nat) : Int)).natAbs
      = (c.2 - ((pos % 5 : Nat) : Int)).natAbs := by
    omega
  have hposall : is_diagonal_allowed pos = true := by
    rcases goatCandidates_mem_cases hcand with hm | ⟨hall, -⟩
    · exfalso
      simp only [List.mem_cons, List.not_mem_nil, or_false] at hm
      rcases hm with hm | hm | hm | hm <;>
        (have h1 := congrArg Prod.fst hm
         have h2 := congrArg Prod.snd hm
         simp only [] at h1 h2
         omega)
    · exact hall
  exact ⟨hposall, hdg hcdiag⟩

lemma move_tiger_of_mem {b : Board} {f t : Nat} (hlen : b.cells.length = 25)
    (hmem : (f, t) ∈ get_all_valid_tiger_moves b) : (move_tiger b f t).2 = true := by
  obtain ⟨hf, hT, hm⟩ := mem_tiger_aggregate.mp hmem
  obtain ⟨hlt, hE⟩ := tiger_move_dest hm
  unfold move_tiger
  rw [if_neg (by omega), if_neg (by simp [hT]), if_neg (by simp [hE]),
    if_neg (by simp [hm])]

lemma move_goat_of_mem {b : Board} {f t : Nat} (hlen : b.cells.length = 25)
    (hih : b.goats_in_hand = 0)
    (hmem : (f, t) ∈ get_all_valid_goat_moves b) : (move_goat b f t).2 = true := by
  obtain ⟨hf, hG, hm⟩ := (mem_goat_aggregate_movement hih).mp hmem
  obtain ⟨hlt, hE⟩ := goat_move_dest hm
  unfold move_goat
  rw [if_neg (by omega), if_neg (by simp [hG]), if_neg (by simp [hE]),
    if_neg (by simp [hm])]

lemma place_goat_of_mem {b : Board} {p : Nat} (hlen : b.cells.length = 25)
    (hih : 0 < b.goats_in_hand)
    (hmem : (p, p) ∈ get_all_valid_goat_moves b) : (place_goat b p).2 = true := by
  obtain ⟨-, hp, hE⟩ := (mem_goat_aggregate_placement hih).mp hmem
  unfold place_goat
  rw [if_neg (by push_neg; exact ⟨by omega, hE, by omega⟩)]
lemma ai_tiger_depth_pass_best {b : Board} {timer : Nat → Bool} {depth : Nat} :
    ∀ (l : List (Nat × Nat)) (best : Option (Nat × Nat)) (bs : Int) (k : Nat)
      (m : Nat × Nat),
      (ai_tiger_depth_pass b timer depth l best bs k).1 = some m →
      best = some m ∨ m ∈ l := by
  intro l
  induction l with
  | nil =>
    intro best bs k m h
    exact Or.inl h
  | cons ft rest ih =>
    obtain ⟨f, t⟩ := ft
    intro best bs k m h
    simp only [ai_tiger_depth_pass] at h
    split at h
    · exact Or.inl h
    · split at h
      · rcases ih _ _ _ _ h with hbest | hmem
        · obtain rfl := (Option.some.injEq .. |>.mp hbest)
          exact Or.inr (List.mem_cons_self _ _)
        · exact Or.inr (List.mem_cons_of_mem _ hmem)
      · rcases ih _ _ _ _ h with hbest | hmem
        · exact Or.inl hbest
        · exact Or.inr (List.mem_cons_of_mem _ hmem)

lemma ai_tiger_loop_best {b : Board} {timer : Nat → Bool} {moves : List (Nat × Nat)} :
    ∀ (fuel : Nat) (best : Option (Nat × Nat)) (depth k : Nat) (m : Nat × Nat),
      ai_tiger_loop b timer moves fuel best depth k = some m →
      best = some m ∨ m ∈ moves := by
  intro fuel
  induction fuel with
  | zero =>
    intro best depth k m h
    exact Or.inl h
  | succ fuel ih =>
    intro best depth k m h
    simp only [ai_tiger_loop] at h
    split at h
    · exact Or.inl h
    · split at h
      · rcases ih _ _ _ _ h with hbest | hmem
        · rcases ai_tiger_depth_pass_best _ _ _ _ _ hbest with hno | hmem2
          · exact Option.noConfusion hno
          · exact Or.inr hmem2
        · exact Or.inr hmem
      · exact Or.inl h

lemma ai_move_tiger_spec (b : Board) (timer : Nat → Bool) (fuel : Nat) :
    (∃ ft, ft ∈ get_all_valid_tiger_moves b ∧
        ai_move_tiger b timer fuel = move_tiger b ft.1 ft.2) ∨
      ai_move_tiger b timer fuel = (b, false) := by
  unfold ai_move_tiger
  simp only []
  split
  · exact Or.inr rfl
  · cases hLoop : ai_tiger_loop b timer (get_all_valid_tiger_moves b) fuel none 1 0 with
    | none => exact Or.inr rfl
    | some ft =>
      obtain ⟨f, t⟩ := ft
      rcases ai_tiger_loop_best _ _ _ _ _ hLoop with hno | hmem
      · exact Option.noConfusion hno
      · exact Or.inl ⟨(f, t), hmem, rfl⟩

lemma ai_goat_place_pass_best {b : Board} {timer : Nat → Bool} {depth : Nat} :
    ∀ (l : List Nat) (best : Option (Nat × Nat)) (bs : Int) (k : Nat) (m : Nat × Nat),
      (ai_goat_place_pass b timer depth l best bs k).1 = some m →
      best = some m ∨
        (m.1 = m.2 ∧ m.1 ∈ l ∧ cellAt b.cells m.1 = Piece.Empty) := by
  intro l
  induction l with
  | nil =>
    intro best bs k m h
    exact Or.inl h
  | cons pos rest ih =>
    intro best bs k m h
    simp only [ai_goat_place_pass] at h
    split at h
    · exact Or.inl h
    · split at h
      · rename_i hEmpty
        split at h
        · rcases ih _ _ _ _ h with hbest | hmem
          · obtain rfl := (Option.some.injEq .. |>.mp hbest)
            exact Or.inr ⟨rfl, List.mem_cons_self _ _, hEmpty⟩
          · exact Or.inr ⟨hmem.1, List.mem_cons_of_mem _ hmem.2.1, hmem.2.2⟩
        · rcases ih _ _ _ _ h with hbest | hmem
          · exact Or.inl hbest
          · exact Or.inr ⟨hmem.1, List.mem_cons_of_mem _ hmem.2.1, hmem.2.2⟩
      · rcases ih _ _ _ _ h with hbest | hmem
        · exact Or.inl hbest
        · exact Or.inr ⟨hmem.1, List.mem_cons_of_mem _ hmem.2.1, hmem.2.2⟩

lemma ai_goat_move_pass_best {b : Board} {timer : Nat → Bool} {depth : Nat} :
    ∀ (l : List (Nat × Nat)) (best : Option (Nat × Nat)) (bs : Int) (k : Nat)
      (m : Nat × Nat),
      (ai_goat_move_pass b timer depth l best bs k).1 = some m →
      best = some m ∨ m ∈ l := by
  intro l
  induction l with
  | nil =>
    intro best bs k m h
    exact Or.inl h
  | cons ft rest ih =>
    obtain ⟨f, t⟩ := ft
    intro best bs k m h
    simp only [ai_goat_move_pass] at h
    split at h
    · exact Or.inl h
    · split at h
      · rcases ih _ _ _ _ h with hbest | hmem
        · obtain rfl := (Option.some.injEq .. |>.mp hbest)
          exact Or.inr (List.mem_cons_self _ _)
        · exact Or.inr (List.mem_cons_of_mem _ hmem)
      · rcases ih _ _ _ _ h with hbest | hmem
        · exact Or.inl hbest
        · exact Or.inr (List.mem_cons_of_mem _ hmem)

lemma ai_goat_loop_best {b : Board} {timer : Nat → Bool} :
    ∀ (fuel : Nat) (best : Option (Nat × Nat)) (depth k : Nat) (m : Nat × Nat),
      ai_goat_loop b timer fuel best depth k = some m →
      best = some m ∨ m ∈ get_all_valid_goat_moves b := by
  intro fuel
  induction fuel with
  | zero =>
    intro best depth k m h
    exact Or.inl h
  | succ fuel ih =>
    intro best depth k m h
    simp only [ai_goat_loop] at h
    split at h
    · exact Or.inl h
    · split at h
      · rename_i hih
        split at h
        · rcases ih _ _ _ _ h with hbest | hmem
          · rcases ai_goat_place_pass_best _ _ _ _ _ hbest with hno | ⟨h12, hrange, hE⟩
            · exact Option.noConfusion hno
            · right
              obtain ⟨m1, m2⟩ := m
              simp only [] at h12
              subst h12
              exact (mem_goat_aggregate_placement hih).mpr
                ⟨rfl, List.mem_range.mp hrange, hE⟩
          · exact Or.inr hmem
        · exact Or.inl h
      · split at h
        · rcases ih _ _ _ _ h with hbest | hmem
          · rcases ai_goat_move_pass_best _ _ _ _ _ hbest with hno | hmem2
            · exact Option.noConfusion hno
            · exact Or.inr hmem2
          · exact Or.inr hmem
        · exact Or.inl h

lemma ai_move_goat_spec (b : Board) (timer : Nat → Bool) (fuel : Nat) :
    (∃ ft, ft ∈ get_all_valid_goat_moves b ∧
        ai_move_goat b timer fuel =
          (if ft.1 = ft.2 then place_goat b ft.1 else move_goat b ft.1 ft.2)) ∨
      ai_move_goat b timer fuel = (b, false) := by
  unfold ai_move_goat
  cases hLoop : ai_goat_loop b timer fuel none 1 0 with
  | none => exact Or.inr rfl
  | some ft =>
    obtain ⟨f, t⟩ := ft
    rcases ai_goat_loop_best _ _ _ _ _ hLoop with hno | hmem
    · exact Option.noConfusion hno
    · exact Or.inl ⟨(f, t), hmem, rfl⟩
lemma ai_move_tiger_empty {b : Board} {timer : Nat → Bool} {fuel : Nat}
    (h : get_all_valid_tiger_moves b = []) :
    ai_move_tiger b timer fuel = (b, false) := by
  unfold ai_move_tiger
  simp [h]

lemma ai_move_tiger_false {b : Board} {timer : Nat → Bool} {fuel : Nat}
    (h : (ai_move_tiger b timer fuel).2 = false) :
    (ai_move_tiger b timer fuel).1 = b := by
  rcases ai_move_tiger_spec b timer fuel with ⟨ft, hmem, heq⟩ | heq
  · rw [heq] at h ⊢
    exact move_tiger_fail h
  · rw [heq]

lemma ai_move_goat_false {b : Board} {timer : Nat → Bool} {fuel : Nat}
    (h : (ai_move_goat b timer fuel).2 = false) :
    (ai_move_goat b timer fuel).1 = b := by
  rcases ai_move_goat_spec b timer fuel with ⟨ft, hmem, heq⟩ | heq
  · by_cases hft : ft.1 = ft.2
    · rw [heq, if_pos hft] at h ⊢
      exact place_goat_fail h
    · rw [heq, if_neg hft] at h ⊢
      exact move_goat_fail h
  · rw [heq]

lemma ai_goat_place_pass_stuck {b : Board} {timer : Nat → Bool} {depth : Nat} :
    ∀ (l : List Nat) (best : Option (Nat × Nat)) (bs : Int) (k : Nat),
      (∀ p ∈ l, cellAt b.cells p ≠ Piece.Empty) →
      (ai_goat_place_pass b timer depth l best bs k).1 = best := by
  intro l
  induction l with
  | nil =>
    intro best bs k hall
    rfl
  | cons pos rest ih =>
    intro best bs k hall
    simp only [ai_goat_place_pass]
    split
    · rfl
    · split
      · exact absurd (by assumption) (hall pos (List.mem_cons_self _ _))
      · exact ih _ _ _ (fun p hp => hall p (List.mem_cons_of_mem _ hp))

lemma ai_goat_loop_none {b : Board} {timer : Nat → Bool}
    (hagg : get_all_valid_goat_moves b = []) :
    ∀ (fuel depth k : Nat), ai_goat_loop b timer fuel none depth k = none := by
  intro fuel
  induction fuel with
  | zero =>
    intro depth k
    rfl
  | succ fuel ih =>
    intro depth k
    simp only [ai_goat_loop]
    split
    · rfl
    · split
      · rename_i hih
        have hfilter : ((List.range 25).filter
            (fun p => cellAt b.cells p = Piece.Empty)) = [] := by
          have hh := hagg
          unfold get_all_valid_goat_moves at hh
          rw [if_pos hih] at hh
          exact List.map_eq_nil_iff.mp hh
        have hall : ∀ p ∈ List.range 25, cellAt b.cells p ≠ Piece.Empty := by
          intro p hp
          have := List.filter_eq_nil_iff.mp hfilter p hp
          simpa using this
        have hstuck := @ai_goat_place_pass_stuck b timer depth
          (List.range 25) none i32_max (k + 1) hall
        split
        · rw [hstuck]
          exact ih _ _
        · rfl
      · rw [hagg]
        split
        · exact ih _ _
        · rfl

lemma ai_move_goat_empty {b : Board} {timer : Nat → Bool} {fuel : Nat}
    (hagg : get_all_valid_goat_moves b = []) :
    ai_move_goat b timer fuel = (b, false) := by
  unfold ai_move_goat
  rw [ai_goat_loop_none hagg]
lemma jump_scenario_mem {b : Board}
    (h1 : cellAt b.cells 1 = Piece.Goat) (h2 : cellAt b.cells 2 = Piece.Empty) :
    2 ∈ get_valid_tiger_moves b 0 := by
  apply List.mem_filterMap.mpr
  refine ⟨((0 : Int), (2 : Int)), by decide, ?_⟩
  simp [tigerCheck, cellAt] at h1 h2 ⊢
  norm_num [h1, h2]

lemma jump_scenario_not_mem {b : Board}
    (h1 : cellAt b.cells 1 ≠ Piece.Goat) :
    2 ∉ get_valid_tiger_moves b 0 := by
  intro hmem
  obtain ⟨c, hcand, hchk⟩ := List.mem_filterMap.mp hmem
  obtain ⟨hb, htq, hempty, hdg, hjump⟩ := tigerCheck_some_elim hchk
  obtain ⟨hc1, hc2, -⟩ := candidate_coords hb htq
  clear hchk hmem hcand
  have hj : (c.1 - ((0 / 5 : Nat) : Int)).natAbs = 2 ∨
      (c.2 - ((0 % 5 : Nat) : Int)).natAbs = 2 := by
    omega
  obtain ⟨hgoat, -⟩ := hjump hj
  have hmid : ((((0 / 5 : Nat) : Int) + c.1) / 2 * 5 +
      (((0 % 5 : Nat) : Int) + c.2) / 2).toNat = 1 := by
    omega
  rw [hmid] at hgoat
  exact h1 hgoat

lemma jump_scenario_success {b : Board} (hlen : b.cells.length = 25)
    (h0 : cellAt b.cells 0 = Piece.Tiger) (h1 : cellAt b.cells 1 = Piece.Goat)
    (h2 : cellAt b.cells 2 = Piece.Empty) :
    (move_tiger b 0 2).2 = true ∧
      cellAt (move_tiger b 0 2).1.cells 1 = Piece.Empty ∧
      (move_tiger b 0 2).1.captured_goats = b.captured_goats + 1 := by
  have hmem := jump_scenario_mem h1 h2
  have hsucc : (move_tiger b 0 2).2 = true := by
    unfold move_tiger
    rw [if_neg (by omega), if_neg (by simp [h0]), if_neg (by simp [h2]),
      if_neg (by simp [hmem])]
  have heq : move_tiger b 0 2 = ((move_tiger b 0 2).1, true) := by
    rw [← hsucc]
  obtain ⟨-, -, -, -, -, hb2⟩ := move_tiger_success heq
  have hcap : get_captured_position b 0 2 = some (midPos 0 2) :=
    get_captured_position_of_jump hmem (by decide)
  have hmid1 : midPos 0 2 = 1 := by decide
  rw [hcap, hmid1] at hb2
  refine ⟨hsucc, ?_, ?_⟩
  · rw [hb2]
    show cellAt (((b.cells.set 1 Piece.Empty).set 2 Piece.Tiger).set 0 Piece.Empty) 1
      = Piece.Empty
    rw [cellAt_set_ne _ _ _ _ (by decide), cellAt_set_ne _ _ _ _ (by decide),
      cellAt_set_eq _ _ _ (by omega)]
  · rw [hb2]

lemma jump_scenario_fail {b : Board} (hlen : b.cells.length = 25)
    (h0 : cellAt b.cells 0 = Piece.Tiger) (h1 : cellAt b.cells 1 ≠ Piece.Goat)
    (h2 : cellAt b.cells 2 = Piece.Empty) :
    move_tiger b 0 2 = (b, false) := by
  have hnot := jump_scenario_not_mem h1
  unfold move_tiger
  rw [if_neg (by omega), if_neg (by simp [h0]), if_neg (by simp [h2]),
    if_pos hnot]
def cornerPositions : List Nat := [0, 4, 20, 24]

def outerEdgeMidpoints : List Nat := [2, 10, 14, 22]

def centerOrthogonalNeighbors : List Nat := [7, 11, 13, 17]

def centerDiagonalNeighbors : List Nat := [6, 8, 16, 18]

/-- The diagonal-eligible set exactly as the claim words it: the four
corners, the outer-ring edge midpoints, the center, and the center's
**orthogonal** neighbors. -/
def claimedDiagonalSet : List Nat :=
  cornerPositions ++ outerEdgeMidpoints ++ [12] ++ centerOrthogonalNeighbors

/-- The set the code's test actually accepts: the four corners, the
outer-ring edge midpoints, the center, and the center's **diagonal**
neighbors — i.e. the 13 even-indexed intersections. -/
def codeDiagonalSet : List Nat :=
  cornerPositions ++ outerEdgeMidpoints ++ [12] ++ centerDiagonalNeighbors

lemma is_diagonal_allowed_iff (pos : Nat) :
    is_diagonal_allowed pos = true ↔ pos ∈ codeDiagonalSet := by
  constructor
  · intro h
    by_cases hlt : pos < 25
    · interval_cases pos <;> revert h <;> decide
    · exfalso
      obtain ⟨k, rfl⟩ : ∃ k, pos = k + 25 := ⟨pos - 25, by omega⟩
      rw [show is_diagonal_allowed (k + 25) = false from rfl] at h
      exact Bool.noConfusion h
  · intro h
    fin_cases h <;> decide
/-- Modelled from the claim's words (for comparison with the code's
`evaluate_position`): "+20 per legal tiger jump-capture currently
available" — the aggregate tiger moves whose capture lookup succeeds. -/
def claimed_capturable (b : Board) : Nat :=
  ((get_all_valid_tiger_moves b).filter
    (fun m => (get_captured_position b m.1 m.2).isSome)).length

/-- Modelled from the claim's words: the full evaluation formula as the
spec states it, differing from `evaluate_position` only in the
jump-capture term. -/
def claimed_evaluate (b : Board) : Int :=
  match get_winner b with
  | Winner.Tigers => 10000
  | Winner.Goats => -10000
  | Winner.None =>
    (b.captured_goats : Int) * 100
      - (((tigerPositions b).filter
          (fun p => (get_valid_tiger_moves b p).isEmpty)).length : Int) * 50
      - ((strategic_positions.filter
          (fun p => cellAt b.cells p = Piece.Goat)).length : Int) * 10
      + (claimed_capturable b : Int) * 20

/-- A board with the four corner tigers and one goat at position 23:
tiger 24 has the legal jump-capture 24 → 22 over it. -/
def demoC8 : Board :=
  { cells := Board.new.cells.set 23 Piece.Goat
    goats_in_hand := 19
    captured_goats := 0
    selected_position := none
    move_history := [] }

/-! ## Claim theorems -/

/-- C1: for every state reachable from the initial board (tigers at 0, 4,
20, 24; 20 goats in hand; no captures; empty history) by any sequence of
`place_goat`, `move_goat`, `move_tiger` and `undo` calls, the number of
cells holding `Tiger` is exactly 4, and the number of cells holding `Goat`
plus `captured_goats` plus `goats_in_hand` equals 20. -/
theorem C1_reachable_invariant (b : Board) (h : Reachable b) :
    pcount Piece.Tiger b.cells = 4 ∧
      pcount Piece.Goat b.cells + b.captured_goats + b.goats_in_hand = 20 := by
  obtain ⟨-, hT, hS, -⟩ := reachable_inv h
  exact ⟨hT, hS⟩

/-- C1 witness: the invariant evaluated on the concrete reachable state
obtained by placing a goat at 1, jumping it with the corner tiger, and
undoing the jump. -/
theorem C1_reachable_invariant_witness :
    pcount Piece.Tiger (undo (move_tiger (place_goat Board.new 1).1 0 2).1).1.cells = 4 ∧
      pcount Piece.Goat (undo (move_tiger (place_goat Board.new 1).1 0 2).1).1.cells +
        (undo (move_tiger (place_goat Board.new 1).1 0 2).1).1.captured_goats +
        (undo (move_tiger (place_goat Board.new 1).1 0 2).1).1.goats_in_hand = 20 :=
  C1_reachable_invariant _
    (Reachable.undoStep _ (Reachable.mtiger _ 0 2 (Reachable.place _ 1 Reachable.init)))

/-- C2: every mutating call (`place_goat`, `move_goat`, `move_tiger`) that
returns `true`, followed by one `undo`, returns `true` and restores
`cells`, `goats_in_hand` and `captured_goats` exactly; and `can_undo`
returns `false` iff the move history is empty. -/
theorem C2_undo_roundtrip (b : Board) :
    (∀ p b2, place_goat b p = (b2, true) →
      (undo b2).2 = true ∧ (undo b2).1.cells = b.cells ∧
        (undo b2).1.goats_in_hand = b.goats_in_hand ∧
        (undo b2).1.captured_goats = b.captured_goats) ∧
    (∀ f t b2, move_goat b f t = (b2, true) →
      (undo b2).2 = true ∧ (undo b2).1.cells = b.cells ∧
        (undo b2).1.goats_in_hand = b.goats_in_hand ∧
        (undo b2).1.captured_goats = b.captured_goats) ∧
    (∀ f t b2, move_tiger b f t = (b2, true) →
      (undo b2).2 = true ∧ (undo b2).1.cells = b.cells ∧
        (undo b2).1.goats_in_hand = b.goats_in_hand ∧
        (undo b2).1.captured_goats = b.captured_goats) ∧
    (can_undo b = false ↔ b.move_history = []) := by
  refine ⟨?_, ?_, ?_, ?_⟩
  · intro p b2 h
    obtain ⟨h1, h2, h3, h4, -⟩ := undo_place_goat h
    exact ⟨h1, h2, h3, h4⟩
  · intro f t b2 h
    obtain ⟨h1, h2, h3, h4, -⟩ := undo_move_goat h
    exact ⟨h1, h2, h3, h4⟩
  · intro f t b2 h
    obtain ⟨h1, h2, h3, h4, -⟩ := undo_move_tiger h
    exact ⟨h1, h2, h3, h4⟩
  · simp [can_undo, List.isEmpty_iff]

/-- C2 witness: the round-trip evaluated after a concrete placement, a
concrete capture, and the `can_undo` equivalence on the fresh board. -/
theorem C2_undo_roundtrip_witness :
    ((undo (place_goat Board.new 12).1).2 = true ∧
      (undo (place_goat Board.new 12).1).1.cells = Board.new.cells ∧
      (undo (place_goat Board.new 12).1).1.goats_in_hand = Board.new.goats_in_hand ∧
      (undo (place_goat Board.new 12).1).1.captured_goats = Board.new.captured_goats) ∧
    ((undo (move_tiger (place_goat Board.new 1).1 0 2).1).2 = true ∧
      (undo (move_tiger (place_goat Board.new 1).1 0 2).1).1.cells
        = (place_goat Board.new 1).1.cells) ∧
    (can_undo Board.new = false ↔ Board.new.move_history = []) := by
  have h1 := (C2_undo_roundtrip Board.new).1 12 (place_goat Board.new 12).1 (by decide)
  have h2 := ((C2_undo_roundtrip (place_goat Board.new 1).1).2.2.1) 0 2
    (move_tiger (place_goat Board.new 1).1 0 2).1 (by decide)
  exact ⟨⟨h1.1, h1.2.1, h1.2.2.1, h1.2.2.2⟩, ⟨h2.1, h2.2.1⟩,
    (C2_undo_roundtrip Board.new).2.2.2⟩

/-- C3: `get_winner` returns `Tigers` iff `captured_goats >= 5` (checked
before mobility), returns `Goats` iff `captured_goats < 5` and the
aggregate tiger move set is empty, returns `None` otherwise, and
`is_game_over` is `true` exactly when the winner is not `None`. -/
theorem C3_get_winner (b : Board) :
    (get_winner b = Winner.Tigers ↔ 5 ≤ b.captured_goats) ∧
    (get_winner b = Winner.Goats ↔
      b.captured_goats < 5 ∧ get_all_valid_tiger_moves b = []) ∧
    (get_winner b = Winner.None ↔
      b.captured_goats < 5 ∧ get_all_valid_tiger_moves b ≠ []) ∧
    (is_game_over b = true ↔ get_winner b ≠ Winner.None) :=
  ⟨get_winner_tigers_iff b, get_winner_goats_iff b, get_winner_none_iff b,
    is_game_over_iff b⟩

/-- C4: whenever `move_tiger(from, to)` returns `true` and the row or
column distance exceeds 1 (a jump), the midpoint cell becomes `Empty`,
`captured_goats` increments by exactly 1, and the pushed history entry
records the captured position; in particular with a Goat at 1, a Tiger at
0 and 2 empty, `move_tiger(0, 2)` succeeds, clears cell 1 and increments
`captured_goats`, while without a Goat at 1 the same call fails and
changes nothing. -/
theorem C4_tiger_jump_capture :
    (∀ (b : Board) (f t : Nat) (b2 : Board),
      move_tiger b f t = (b2, true) →
      (1 < (((f / 5 : Nat) : Int) - ((t / 5 : Nat) : Int)).natAbs ∨
        1 < (((f % 5 : Nat) : Int) - ((t % 5 : Nat) : Int)).natAbs) →
      cellAt b2.cells (midPos f t) = Piece.Empty ∧
        b2.captured_goats = b.captured_goats + 1 ∧
        b2.move_history = Move.MoveTiger f t (some (midPos f t)) :: b.move_history) ∧
    (∀ b : Board, b.cells.length = 25 → cellAt b.cells 0 = Piece.Tiger →
      cellAt b.cells 1 = Piece.Goat → cellAt b.cells 2 = Piece.Empty →
      (move_tiger b 0 2).2 = true ∧
        cellAt (move_tiger b 0 2).1.cells 1 = Piece.Empty ∧
        (move_tiger b 0 2).1.captured_goats = b.captured_goats + 1) ∧
    (∀ b : Board, b.cells.length = 25 → cellAt b.cells 0 = Piece.Tiger →
      cellAt b.cells 1 ≠ Piece.Goat → cellAt b.cells 2 = Piece.Empty →
      move_tiger b 0 2 = (b, false)) := by
  refine ⟨?_, fun b => jump_scenario_success, fun b => jump_scenario_fail⟩
  intro b f t b2 h hd
  obtain ⟨hf, ht, hT, hE, hmem, hb2⟩ := move_tiger_success h
  have hcap : get_captured_position b f t = some (midPos f t) :=
    get_captured_position_of_jump hmem hd
  have hmG : cellAt b.cells (midPos f t) = Piece.Goat := tiger_move_jump hmem hd
  have hft : f ≠ t := by
    intro hh
    rw [hh, hE] at hT
    exact Piece.noConfusion hT
  have hpf : midPos f t ≠ f := by
    intro hh
    rw [hh, hT] at hmG
    exact Piece.noConfusion hmG
  have hpt : midPos f t ≠ t := by
    intro hh
    rw [hh, hE] at hmG
    exact Piece.noConfusion hmG
  have hm : midPos f t < b.cells.length :=
    lt_length_of_cellAt_ne _ _ (by rw [hmG]; decide)
  rw [hcap] at hb2
  rw [hb2]
  refine ⟨?_, rfl, rfl⟩
  show cellAt (((b.cells.set (midPos f t) Piece.Empty).set t Piece.Tiger).set f
    Piece.Empty) (midPos f t) = Piece.Empty
  rw [cellAt_set_ne _ _ _ _ (fun hh => hpf hh.symm),
    cellAt_set_ne _ _ _ _ (fun hh => hpt hh.symm), cellAt_set_eq _ _ _ hm]

/-- C4 witness: the jump scenario evaluated concretely — a goat placed at
1 is captured by `move_tiger 0 2`, and on the fresh board (no goat at 1)
the same call fails and leaves the board unchanged. -/
theorem C4_tiger_jump_capture_witness :
    ((move_tiger (place_goat Board.new 1).1 0 2).2 = true ∧
      cellAt (move_tiger (place_goat Board.new 1).1 0 2).1.cells 1 = Piece.Empty ∧
      (move_tiger (place_goat Board.new 1).1 0 2).1.captured_goats
        = (place_goat Board.new 1).1.captured_goats + 1) ∧
    (move_tiger (place_goat Board.new 1).1 0 2).1.move_history
      = Move.MoveTiger 0 2 (some (midPos 0 2)) :: (place_goat Board.new 1).1.move_history ∧
    move_tiger Board.new 0 2 = (Board.new, false) := by
  have hgen := (C4_tiger_jump_capture.1 (place_goat Board.new 1).1 0 2
    (move_tiger (place_goat Board.new 1).1 0 2).1 (by decide) (by decide))
  have hspec := C4_tiger_jump_capture.2.1 (place_goat Board.new 1).1
    (by decide) (by decide) (by decide) (by decide)
  have hfail := C4_tiger_jump_capture.2.2 Board.new
    (by decide) (by decide) (by decide) (by decide)
  exact ⟨hspec, hgen.2.2, hfail⟩

/-- C5: every failing `place_goat`, `move_goat`, `move_tiger` or `undo`
call returns `false` and leaves the board unchanged; the listed rule
violations (bad index, wrong piece at source, occupied destination, move
outside the legal set, placing with an empty hand, undoing an empty
history) all fail this way.  The embedding is total, so no call faults. -/
theorem C5_failure_no_mutation (b : Board) :
    (∀ p, (place_goat b p).2 = false → (place_goat b p).1 = b) ∧
    (∀ f t, (move_goat b f t).2 = false → (move_goat b f t).1 = b) ∧
    (∀ f t, (move_tiger b f t).2 = false → (move_tiger b f t).1 = b) ∧
    ((undo b).2 = false → (undo b).1 = b) ∧
    (∀ p, b.cells.length ≤ p → place_goat b p = (b, false)) ∧
    (∀ p, cellAt b.cells p ≠ Piece.Empty → place_goat b p = (b, false)) ∧
    (∀ p, b.goats_in_hand = 0 → place_goat b p = (b, false)) ∧
    (∀ f t, b.cells.length ≤ f ∨ b.cells.length ≤ t →
      move_goat b f t = (b, false) ∧ move_tiger b f t = (b, false)) ∧
    (∀ f t, cellAt b.cells f ≠ Piece.Goat → move_goat b f t = (b, false)) ∧
    (∀ f t, cellAt b.cells f ≠ Piece.Tiger → move_tiger b f t = (b, false)) ∧
    (∀ f t, cellAt b.cells t ≠ Piece.Empty →
      move_goat b f t = (b, false) ∧ move_tiger b f t = (b, false)) ∧
    (∀ f t, t ∉ get_valid_goat_moves b f → move_goat b f t = (b, false)) ∧
    (∀ f t, t ∉ get_valid_tiger_moves b f → move_tiger b f t = (b, false)) ∧
    (b.move_history = [] → undo b = (b, false)) := by
  refine ⟨fun p => place_goat_fail, fun f t => move_goat_fail,
    fun f t => move_tiger_fail, undo_fail, ?_, ?_, ?_, ?_, ?_, ?_, ?_, ?_, ?_, ?_⟩
  · intro p hp
    rcases place_goat_cases b p with hc | hc
    · exact hc
    · have hsucc : place_goat b p = ((place_goat b p).1, true) := by rw [← hc]
      obtain ⟨h1, -, -, -⟩ := place_goat_success hsucc
      omega
  · intro p hp
    rcases place_goat_cases b p with hc | hc
    · exact hc
    · have hsucc : place_goat b p = ((place_goat b p).1, true) := by rw [← hc]
      obtain ⟨-, h2, -, -⟩ := place_goat_success hsucc
      exact absurd h2 hp
  · intro p hp
    rcases place_goat_cases b p with hc | hc
    · exact hc
    · have hsucc : place_goat b p = ((place_goat b p).1, true) := by rw [← hc]
      obtain ⟨-, -, h3, -⟩ := place_goat_success hsucc
      omega
  · intro f t hidx
    constructor
    · rcases move_goat_cases b f t with hc | hc
      · exact hc
      · have hsucc : move_goat b f t = ((move_goat b f t).1, true) := by rw [← hc]
        obtain ⟨h1, h2, -, -, -, -⟩ := move_goat_success hsucc
        omega
    · rcases move_tiger_cases b f t with hc | hc
      · exact hc
      · have hsucc : move_tiger b f t = ((move_tiger b f t).1, true) := by rw [← hc]
        obtain ⟨h1, h2, -, -, -, -⟩ := move_tiger_success hsucc
        omega
  · intro f t hG
    rcases move_goat_cases b f t with hc | hc
    · exact hc
    · have hsucc : move_goat b f t = ((move_goat b f t).1, true) := by rw [← hc]
      obtain ⟨-, -, h3, -, -, -⟩ := move_goat_success hsucc
      exact absurd h3 hG
  · intro f t hT
    rcases move_tiger_cases b f t with hc | hc
    · exact hc
    · have hsucc : move_tiger b f t = ((move_tiger b f t).1, true) := by rw [← hc]
      obtain ⟨-, -, h3, -, -, -⟩ := move_tiger_success hsucc
      exact absurd h3 hT
  · intro f t hE
    constructor
    · rcases move_goat_cases b f t with hc | hc
      · exact hc
      · have hsucc : move_goat b f t = ((move_goat b f t).1, true) := by rw [← hc]
        obtain ⟨-, -, -, h4, -, -⟩ := move_goat_success hsucc
        exact absurd h4 hE
    · rcases move_tiger_cases b f t with hc | hc
      · exact hc
      · have hsucc : move_tiger b f t = ((move_tiger b f t).1, true) := by rw [← hc]
        obtain ⟨-, -, -, h4, -, -⟩ := move_tiger_success hsucc
        exact absurd h4 hE
  · intro f t hm
    rcases move_goat_cases b f t with hc | hc
    · exact hc
    · have hsucc : move_goat b f t = ((move_goat b f t).1, true) := by rw [← hc]
      obtain ⟨-, -, -, -, h5, -⟩ := move_goat_success hsucc
      exact absurd h5 hm
  · intro f t hm
    rcases move_tiger_cases b f t with hc | hc
    · exact hc
    · have hsucc : move_tiger b f t = ((move_tiger b f t).1, true) := by rw [← hc]
      obtain ⟨-, -, -, -, h5, -⟩ := move_tiger_success hsucc
      exact absurd h5 hm
  · intro hh
    unfold undo
    rw [hh]

/-- C5 witness: concrete failing calls on the fresh board — out-of-range
and occupied placements, a sourceless tiger move, and an undo with empty
history — all return the unchanged board with `false`. -/
theorem C5_failure_no_mutation_witness :
    place_goat Board.new 25 = (Board.new, false) ∧
    place_goat Board.new 0 = (Board.new, false) ∧
    move_tiger Board.new 12 13 = (Board.new, false) ∧
    move_goat Board.new 0 1 = (Board.new, false) ∧
    undo Board.new = (Board.new, false) := by
  have h := C5_failure_no_mutation Board.new
  exact ⟨h.2.2.2.2.1 25 (by decide), h.2.2.2.2.2.1 0 (by decide),
    h.2.2.2.2.2.2.2.2.2.1 12 13 (by decide),
    h.2.2.2.2.2.2.2.2.1 0 1 (by decide),
    h.2.2.2.2.2.2.2.2.2.2.2.2.2 (by decide)⟩

/-- C6: with `goats_in_hand > 0` the aggregate goat move set consists
exactly of the placement pairs `(p, p)` over the empty cells (and so
contains no movement pair); with `goats_in_hand == 0` it consists exactly
of the movement pairs over every on-board goat's legal moves. -/
theorem C6_goat_aggregate (b : Board) (f t : Nat) :
    (f, t) ∈ get_all_valid_goat_moves b ↔
      (if 0 < b.goats_in_hand then
        f = t ∧ f < 25 ∧ cellAt b.cells f = Piece.Empty
      else cellAt b.cells f = Piece.Goat ∧ t ∈ get_valid_goat_moves b f) := by
  split
  · rename_i hih
    exact mem_goat_aggregate_placement hih
  · rename_i hih
    have h0 : b.goats_in_hand = 0 := by omega
    rw [mem_goat_aggregate_movement h0]
    constructor
    · rintro ⟨-, hG, hm⟩
      exact ⟨hG, hm⟩
    · rintro ⟨hG, hm⟩
      exact ⟨lt_length_of_cellAt_ne _ _ (by rw [hG]; decide), hG, hm⟩

/-- C7 counterexample: position 7 is an orthogonal neighbor of the center
and so belongs to the set the claim describes, yet the code's
diagonal-eligibility test rejects it; position 6, a diagonal neighbor of
the center, is outside the claimed set yet accepted. -/
theorem C7_counterexample :
    7 ∈ claimedDiagonalSet ∧ is_diagonal_allowed 7 = false ∧
      6 ∉ claimedDiagonalSet ∧ is_diagonal_allowed 6 = true := by decide

/-- C7 (amended): the diagonal-eligibility test accepts exactly the fixed
13-element set made of the four corners, the outer-ring edge midpoints,
the center, and the center's **diagonal** neighbors (the even-indexed
intersections); and a diagonal step or jump is generated for tigers or
goats only when all participating cells (endpoints, and the midpoint for
jumps) pass that test. -/
theorem C7_diagonal_eligibility :
    (∀ pos : Nat, is_diagonal_allowed pos = true ↔ pos ∈ codeDiagonalSet) ∧
    (∀ (b : Board) (f t : Nat), t ∈ get_valid_tiger_moves b f →
      (((f / 5 : Nat) : Int) - ((t / 5 : Nat) : Int)).natAbs
        = (((f % 5 : Nat) : Int) - ((t % 5 : Nat) : Int)).natAbs →
      (((f / 5 : Nat) : Int) - ((t / 5 : Nat) : Int)).natAbs ≠ 0 →
      is_diagonal_allowed f = true ∧ is_diagonal_allowed t = true ∧
        ((((f / 5 : Nat) : Int) - ((t / 5 : Nat) : Int)).natAbs = 2 →
          is_diagonal_allowed (midPos f t) = true)) ∧
    (∀ (b : Board) (f t : Nat), t ∈ get_valid_goat_moves b f →
      (((f / 5 : Nat) : Int) - ((t / 5 : Nat) : Int)).natAbs
        = (((f % 5 : Nat) : Int) - ((t % 5 : Nat) : Int)).natAbs →
      (((f / 5 : Nat) : Int) - ((t / 5 : Nat) : Int)).natAbs ≠ 0 →
      is_diagonal_allowed f = true ∧ is_diagonal_allowed t = true) :=
  ⟨is_diagonal_allowed_iff, fun _ _ _ => tiger_move_diag, fun _ _ _ => goat_move_diag⟩

/-- C7 witness: the diagonal step 0 → 6 of the fresh board's corner tiger
instantiates the eligibility property. -/
theorem C7_diagonal_eligibility_witness :
    is_diagonal_allowed 0 = true ∧ is_diagonal_allowed 6 = true ∧
      0 ∈ codeDiagonalSet := by
  have h := C7_diagonal_eligibility.2.1 Board.new 0 6 (by decide) (by decide) (by decide)
  exact ⟨h.1, h.2.1, (C7_diagonal_eligibility.1 0).mp h.1⟩

/-- C8: on the non-terminal board `demoC8` (corner tigers, one goat at 23)
tiger 24 has the legal jump-capture 24 → 22, so the claimed formula gives
+20; the code's `evaluate_position` instead checks every generated
destination against the **first** tiger on the board
(`position(Tiger).unwrap_or(0)`, cell 0) and finds no capture, returning
0 — contradicting its own "each goat that can be captured" comment. -/
theorem C8_evaluation_divergence :
    evaluate_position demoC8 = 0 ∧ claimed_evaluate demoC8 = 20 ∧
      claimed_capturable demoC8 = 1 ∧
      (24, 22) ∈ get_all_valid_tiger_moves demoC8 ∧
      get_captured_position demoC8 24 22 = some 23 ∧
      get_winner demoC8 = Winner.None := by decide

/-- C9 counterexample: with the time budget already expired at the very
first poll (timer constantly `true`), `ai_move_tiger` on the fresh board
returns `false` even though the pre-call legal-move set is non-empty — so
"returns false only when that set was empty" fails as stated. -/
theorem C9_counterexample :
    (ai_move_tiger Board.new (fun _ => true) 1).2 = false ∧
      get_all_valid_tiger_moves Board.new ≠ [] := by decide

/-- C9 (amended): for every board, timer oracle and fuel bound,
`ai_move_tiger` (resp. `ai_move_goat`) either returns `true` having
applied exactly one move from the pre-call aggregate legal-move set of its
side — appending exactly one history entry, which a single `undo` reverts
— or returns `false` with the board unchanged; an empty pre-call move set
always yields `false` (but `false` can also occur when the budget expires
before any search depth completes). -/
theorem C9_ai_move_properties (b : Board) (timer : Nat → Bool) (fuel : Nat) :
    ((ai_move_tiger b timer fuel).2 = false → (ai_move_tiger b timer fuel).1 = b) ∧
    (get_all_valid_tiger_moves b = [] → ai_move_tiger b timer fuel = (b, false)) ∧
    (∀ b2, ai_move_tiger b timer fuel = (b2, true) →
      ∃ ft, ft ∈ get_all_valid_tiger_moves b ∧ move_tiger b ft.1 ft.2 = (b2, true) ∧
        (∃ e, b2.move_history = e :: b.move_history) ∧
        (undo b2).2 = true ∧ (undo b2).1.cells = b.cells ∧
        (undo b2).1.goats_in_hand = b.goats_in_hand ∧
        (undo b2).1.captured_goats = b.captured_goats) ∧
    ((ai_move_goat b timer fuel).2 = false → (ai_move_goat b timer fuel).1 = b) ∧
    (get_all_valid_goat_moves b = [] → ai_move_goat b timer fuel = (b, false)) ∧
    (∀ b2, ai_move_goat b timer fuel = (b2, true) →
      ∃ ft, ft ∈ get_all_valid_goat_moves b ∧
        (if ft.1 = ft.2 then place_goat b ft.1 else move_goat b ft.1 ft.2) = (b2, true) ∧
        (∃ e, b2.move_history = e :: b.move_history) ∧
        (undo b2).2 = true ∧ (undo b2).1.cells = b.cells ∧
        (undo b2).1.goats_in_hand = b.goats_in_hand ∧
        (undo b2).1.captured_goats = b.captured_goats) := by
  refine ⟨fun h => ai_move_tiger_false h, fun h => ai_move_tiger_empty h,
    ?_, fun h => ai_move_goat_false h, fun h => ai_move_goat_empty h, ?_⟩
  · intro b2 h
    rcases ai_move_tiger_spec b timer fuel with ⟨ft, hmem, heq⟩ | heq
    · rw [heq] at h
      obtain ⟨-, -, -, -, -, hb2⟩ := move_tiger_success h
      obtain ⟨h1, h2, h3, h4, -⟩ := undo_move_tiger h
      refine ⟨ft, hmem, h, ⟨Move.MoveTiger ft.1 ft.2
        (get_captured_position b ft.1 ft.2), ?_⟩, h1, h2, h3, h4⟩
      rw [hb2]
    · rw [heq] at h
      simp at h
  · intro b2 h
    rcases ai_move_goat_spec b timer fuel with ⟨ft, hmem, heq⟩ | heq
    · rw [heq] at h
      by_cases hft : ft.1 = ft.2
      · rw [if_pos hft] at h
        obtain ⟨-, -, -, hb2⟩ := place_goat_success h
        obtain ⟨h1, h2, h3, h4, -⟩ := undo_place_goat h
        refine ⟨ft, hmem, by rw [if_pos hft]; exact h,
          ⟨Move.PlaceGoat ft.1, ?_⟩, h1, h2, h3, h4⟩
        rw [hb2]
      · rw [if_neg hft] at h
        obtain ⟨-, -, -, -, -, hb2⟩ := move_goat_success h
        obtain ⟨h1, h2, h3, h4, -⟩ := undo_move_goat h
        refine ⟨ft, hmem, by rw [if_neg hft]; exact h,
          ⟨Move.MoveGoat ft.1 ft.2, ?_⟩, h1, h2, h3, h4⟩
        rw [hb2]
    · rw [heq] at h
      simp at h

/-- C9 witness: with an always-expired timer the tiger call leaves the
fresh board unchanged, and the goat call likewise; the success clause is
instantiated by a permissive timer at fuel 1, whose chosen tiger move is
reverted by one undo. -/
theorem C9_ai_move_properties_witness :
    (ai_move_tiger Board.new (fun _ => true) 1).1 = Board.new ∧
      (ai_move_goat Board.new (fun _ => true) 1).1 = Board.new ∧
      (undo (ai_move_tiger Board.new (fun _ => false) 1).1).1.cells
        = Board.new.cells := by
  have h := C9_ai_move_properties Board.new (fun _ => true) 1
  have h2 := C9_ai_move_properties Board.new (fun _ => false) 1
  obtain ⟨ft, -, -, -, -, hcells, -, -⟩ := h2.2.2.1
    (ai_move_tiger Board.new (fun _ => false) 1).1 (by decide)
  exact ⟨h.1 (by decide), h.2.2.2.1 (by decide), hcells⟩

/-- C10: the search budget of `ai_move_tiger`/`ai_move_goat` is the
hard-coded two-second `Duration::from_secs(2)`; the core exposes no
`set_ai_time_limit`, even though `main.rs` calls one. -/
theorem C10_time_limit_hardcoded : ai_time_limit_secs = 2 := rfl
